import Mathlib

/-!
Verification of the label-declutter placement engine.

Shallow embedding of the placement algorithm that appears, in evolving
copies, in `docs/js/qa_map.js`, `unnamed/part_000` and `unnamed/part_001`
of the repository.  Numbers are modelled as rationals (`ℚ`); the map
projection (`latLngToContainerPoint`), the viewport-bounds test
(`bounds.contains`) and the trigonometric functions (`Math.cos`,
`Math.sin`, composed with the degree-to-radian conversion) are abstracted
as function parameters, since the algorithmic claims under verification do
not depend on their concrete values.
-/

namespace Declutter

/-- A screen point `{x, y}` as produced by `latLngToContainerPoint` or by the
offset computation in `placeWithOffsets`. -/
structure Pt where
  x : ℚ
  y : ℚ
deriving DecidableEq, Repr

/-- An axis-aligned label bounding rectangle `{x1, y1, x2, y2}`. -/
structure Rect where
  x1 : ℚ
  y1 : ℚ
  x2 : ℚ
  y2 : ℚ
deriving DecidableEq, Repr

/-- `rectsOverlap` from `qa_map.js` / `part_000` / `part_001` (identical in all
three):  `!(a.x2 < b.x1 || a.x1 > b.x2 || a.y2 < b.y1 || a.y1 > b.y2)`. -/
def rectsOverlap (a b : Rect) : Bool :=
  ! (decide (a.x2 < b.x1) || decide (a.x1 > b.x2) ||
     decide (a.y2 < b.y1) || decide (a.y1 > b.y2))

/-- `countOverlaps(rect, occupied)`: the loop counts the members of `occupied`
that overlap `rect`; this is exactly `List.countP`. -/
def countOverlaps (rect : Rect) (occupied : List Rect) : ℕ :=
  occupied.countP (fun r => rectsOverlap rect r)

/-- `rectForPoint(pt, labelW, labelH)`: the label box centered on `pt`. -/
def rectForPoint (pt : Pt) (labelW labelH : ℚ) : Rect :=
  { x1 := pt.x - labelW / 2
    y1 := pt.y - labelH / 2
    x2 := pt.x + labelW / 2
    y2 := pt.y + labelH / 2 }

/-- The values taken by `r` in the loop
`for (let r = start; r <= maxRadius; r += step)` of `placeWithOffsets`,
starting at `r = start`.  The loop terminates because `step > 0`. -/
def radiiAux (step maxRadius : ℚ) (hstep : 0 < step) (r : ℚ) : List ℚ :=
  if h : r ≤ maxRadius then r :: radiiAux step maxRadius hstep (r + step) else []
termination_by (if r ≤ maxRadius then (⌊(maxRadius - r) / step⌋ + 1).toNat else 0)
decreasing_by
  rw [if_pos h]
  by_cases h2 : r + step ≤ maxRadius
  · rw [if_pos h2]
    have hx1 : (1 : ℚ) ≤ (maxRadius - r) / step := by
      rw [le_div_iff₀ hstep]
      linarith
    have hfl : (1 : ℤ) ≤ ⌊(maxRadius - r) / step⌋ := by
      exact_mod_cast Int.le_floor.mpr (by exact_mod_cast hx1)
    have heq : (maxRadius - (r + step)) / step = (maxRadius - r) / step - 1 := by
      field_simp
      ring
    rw [heq, Int.floor_sub_one]
    omega
  · rw [if_neg h2]
    have hx0 : (0 : ℚ) ≤ (maxRadius - r) / step := by
      apply div_nonneg (by linarith) (le_of_lt hstep)
    have hfl : (0 : ℤ) ≤ ⌊(maxRadius - r) / step⌋ := Int.floor_nonneg.mpr hx0
    omega

/-- The radius sequence of `placeWithOffsets`:
`for (let r = step; r <= maxRadius; r += step)`.  For `step ≤ 0` the
JavaScript loop would not terminate; such configurations are outside the
documented input domain and are modelled as an empty probe sequence. -/
def radii (step maxRadius : ℚ) : List ℚ :=
  if hstep : 0 < step then radiiAux step maxRadius hstep step else []

/-- The values taken by `a` in the loop
`for (let a = start; a < 360; a += angleStep)`, starting at `a = start`. -/
def anglesAux (angleStep : ℚ) (hstep : 0 < angleStep) (a : ℚ) : List ℚ :=
  if h : a < 360 then a :: anglesAux angleStep hstep (a + angleStep) else []
termination_by (if a < 360 then (⌊(360 - a) / angleStep⌋ + 1).toNat else 0)
decreasing_by
  rw [if_pos h]
  by_cases h2 : a + angleStep < 360
  · rw [if_pos h2]
    have hx1 : (1 : ℚ) ≤ (360 - a) / angleStep := by
      rw [le_div_iff₀ hstep]
      linarith
    have hfl : (1 : ℤ) ≤ ⌊(360 - a) / angleStep⌋ := by
      exact_mod_cast Int.le_floor.mpr (by exact_mod_cast hx1)
    have heq : (360 - (a + angleStep)) / angleStep = (360 - a) / angleStep - 1 := by
      field_simp
      ring
    rw [heq, Int.floor_sub_one]
    omega
  · rw [if_neg h2]
    have hx0 : (0 : ℚ) ≤ (360 - a) / angleStep := by
      apply div_nonneg (by linarith) (le_of_lt hstep)
    have hfl : (0 : ℤ) ≤ ⌊(360 - a) / angleStep⌋ := Int.floor_nonneg.mpr hx0
    omega

/-- The angle sequence of `placeWithOffsets`:
`for (let a = 0; a < 360; a += angleStep)`.  For `angleStep ≤ 0` the
JavaScript loop would not terminate; such configurations are outside the
documented input domain and are modelled as an empty probe sequence. -/
def angles (angleStep : ℚ) : List ℚ :=
  if hstep : 0 < angleStep then anglesAux angleStep hstep 0 else []

/-- The probes `(r, a)` visited by the nested loops of `placeWithOffsets`,
in visiting order: radius outer (ascending), angle inner (ascending). -/
def probeSeq (step maxRadius angleStep : ℚ) : List (ℚ × ℚ) :=
  (radii step maxRadius).flatMap (fun r => (angles angleStep).map (fun a => (r, a)))

/-- The recognized options of the radial `placeWithOffsets`
(`qa_map.js` / `part_000`), with the `??` default values from the source. -/
structure PlaceOpts where
  labelW : ℚ := 90
  labelH : ℚ := 18
  forceOffsetOnOverlap : Bool := false
  maxRadius : ℚ := 60
  step : ℚ := 6
  angleStep : ℚ := 45
deriving DecidableEq, Repr

/-- The running `best` record of the radial `placeWithOffsets`:
`{ pt, rect, overlaps, dist }`. -/
structure Best where
  pt : Pt
  rect : Rect
  overlaps : ℕ
  dist : ℚ
deriving DecidableEq, Repr

/-- The probe point of `placeWithOffsets` at radius `r` and angle `a` degrees:
`{ x: basePt.x + Math.cos(rad) * r, y: basePt.y + Math.sin(rad) * r }`, where
`rad = a * π / 180`.  `cosd`/`sind` abstract `Math.cos`/`Math.sin` composed
with the degree-to-radian conversion (their values at `a` degrees). -/
def probePt (cosd sind : ℚ → ℚ) (basePt : Pt) (r a : ℚ) : Pt :=
  { x := basePt.x + cosd a * r, y := basePt.y + sind a * r }

/-- The body of the nested probe loops of the radial `placeWithOffsets`,
run over the probe sequence: on the first probe whose box has zero overlaps
the loop returns (`Sum.inr`); otherwise, when `force` is set, it updates the
running `best` record exactly as the source does and continues; when the
sequence is exhausted it yields the final `best` (`Sum.inl`). -/
def searchLoop (cosd sind : ℚ → ℚ) (basePt : Pt) (labelW labelH : ℚ)
    (occupied : List Rect) (force : Bool) :
    List (ℚ × ℚ) → Best → Best ⊕ (Pt × Rect)
  | [], best => .inl best
  | (r, a) :: rest, best =>
    let pt := probePt cosd sind basePt r a
    let rect := rectForPoint pt labelW labelH
    let overlaps := countOverlaps rect occupied
    if overlaps = 0 then .inr (pt, rect)
    else
      let best2 :=
        if force ∧ (overlaps < best.overlaps ∨ (overlaps = best.overlaps ∧ r > best.dist)) then
          { pt := pt, rect := rect, overlaps := overlaps, dist := r }
        else best
      searchLoop cosd sind basePt labelW labelH occupied force rest best2

/-- The radial `placeWithOffsets` of `qa_map.js` and `part_000` (the two
copies are token-identical apart from `==` vs `===`).  The feature's
projected anchor `basePt` (`mapRef.latLngToContainerPoint([coords[1],
coords[0]])`) is taken as an argument; projection is abstract. -/
def placeWithOffsets (cosd sind : ℚ → ℚ) (basePt : Pt) (occupied : List Rect)
    (opts : PlaceOpts) : Pt × Rect :=
  let baseRect := rectForPoint basePt opts.labelW opts.labelH
  if countOverlaps baseRect occupied = 0 then (basePt, baseRect)
  else
    match searchLoop cosd sind basePt opts.labelW opts.labelH occupied
        opts.forceOffsetOnOverlap (probeSeq opts.step opts.maxRadius opts.angleStep)
        { pt := basePt, rect := baseRect
          overlaps := countOverlaps baseRect occupied, dist := 0 } with
    | .inr res => res
    | .inl best =>
      if opts.forceOffsetOnOverlap then (best.pt, best.rect) else (basePt, baseRect)

/-- The probe space of the radial `placeWithOffsets` is exhausted: the
centered box overlaps an occupied box and every probe position's box also
overlaps at least one occupied box.  This is the condition under which
(with `forceOffsetOnOverlap`) a still-overlapping box is returned. -/
def exhaustedSearch (cosd sind : ℚ → ℚ) (basePt : Pt) (occupied : List Rect)
    (opts : PlaceOpts) : Bool :=
  decide (countOverlaps (rectForPoint basePt opts.labelW opts.labelH) occupied ≠ 0) &&
  (probeSeq opts.step opts.maxRadius opts.angleStep).all (fun p =>
    decide (countOverlaps
      (rectForPoint (probePt cosd sind basePt p.1 p.2) opts.labelW opts.labelH) occupied ≠ 0))

/-- The number of iterations of the radial loop started at `r`. -/
def iterCount (step maxRadius r : ℚ) : ℕ :=
  if r ≤ maxRadius then (⌊(maxRadius - r) / step⌋ + 1).toNat else 0

/-- The number of iterations of the angle loop started at `a` (the loop
bound is strict, hence a ceiling). -/
def angleIterCount (angleStep a : ℚ) : ℕ :=
  if a < 360 then ⌈(360 - a) / angleStep⌉.toNat else 0

/-- The zero-overlap test used on probes, as a `find?` predicate. -/
def zeroOverlapProbe (cosd sind : ℚ → ℚ) (basePt : Pt) (w hgt : ℚ)
    (occupied : List Rect) (p : ℚ × ℚ) : Bool :=
  decide (countOverlaps (rectForPoint (probePt cosd sind basePt p.1 p.2) w hgt) occupied = 0)

/-- The candidate anchor positions considered by one `placeWithOffsets`
call, as (radius, point) pairs: the unshifted anchor (radius 0) followed by
the probe positions in probing order. -/
def probeCands (cosd sind : ℚ → ℚ) (basePt : Pt) (opts : PlaceOpts) : List (ℚ × Pt) :=
  (0, basePt) :: (probeSeq opts.step opts.maxRadius opts.angleStep).map
    (fun p => (p.1, probePt cosd sind basePt p.1 p.2))

/-- The feature properties consumed by the placement pipeline.  Optional
fields model properties that may be absent (JavaScript `undefined`);
`minZoom` is `some` exactly when the property holds a number (the
`typeof props.minZoom === "number"` check). -/
structure Props where
  minZoom : Option ℚ := none
  tier : Option String := none
  bucket : Option String := none
  tags : Option (List String) := none
  core_tags : Option (List String) := none
  importance : Option ℚ := none
  bucket_rank : Option ℚ := none
  display_name : Option String := none
  name_en : Option String := none
deriving DecidableEq, Repr

/-- A point feature. `coords` models `f.geometry?.coordinates || []`
(`[lon, lat]` when well-formed); a missing geometry is the empty list. -/
structure Feature where
  props : Props
  coords : List ℚ
deriving DecidableEq, Repr

/-- JavaScript `s1 || s2` for strings: the empty string and a missing value
are falsy. -/
def strOr (s : Option String) (dflt : String) : String :=
  match s with
  | some v => if v = "" then dflt else v
  | none => dflt

/-- `props.display_name || props.name_en || ""`. -/
def nameOf (p : Props) : String :=
  strOr p.display_name (strOr p.name_en "")

/-- `props.tags || props.core_tags`: in JavaScript every array (including the
empty array) is truthy, so `core_tags` is consulted only when `tags` is
absent. -/
def effTags (p : Props) : Option (List String) :=
  match p.tags with
  | some t => some t
  | none => p.core_tags

/-- `coreTagOk(tags)` (identical in `qa_map.js`, `part_000` and `part_001`),
with the module-level constant `CORE_TAG_MODE` made a parameter:
a missing/non-array or empty tag list is rejected before the mode is
consulted; mode `"all"` accepts any non-empty list; any other mode requires
membership. -/
def coreTagOk (mode : String) (tags : Option (List String)) : Bool :=
  match tags with
  | none => false
  | some l =>
    if l.length = 0 then false
    else if mode = "all" then true
    else l.contains mode

/-- The `CORE_TAG_MODE` constant of `qa_map.js` and `part_000`. -/
def CORE_TAG_MODE : String := "all"

/-- The two threshold-table categories. -/
inductive Category
  | places
  | physical
deriving DecidableEq, Repr

/-- The fixed threshold table `thresholds` / `THRESHOLDS` (identical values in
`qa_map.js` and `part_000`): lookup of `thresholds[category][tier]`, `none`
when the tier name is not a key of the table. -/
def tierThreshold : Category → String → Option ℚ
  | .places, t =>
    if t = "low" then some 4 else if t = "mid" then some 7
    else if t = "high" then some 9 else none
  | .physical, t =>
    if t = "low" then some 4 else if t = "mid" then some 6
    else if t = "high" then some 8 else none

/-- `thresholds[category].high`. -/
def highThreshold : Category → ℚ
  | .places => 9
  | .physical => 8

/-- `getMinZoom(props, category)` (identical in `qa_map.js` and both copies in
`part_000`/`part_001`): an explicit numeric `minZoom` is returned verbatim;
else a truthy `tier` found in the threshold table yields the table entry;
else the category's `high` threshold. -/
def getMinZoom (p : Props) (category : Category) : ℚ :=
  match p.minZoom with
  | some z => z
  | none =>
    match p.tier with
    | some t =>
      if t ≠ "" then
        match tierThreshold category t with
        | some v => v
        | none => highThreshold category
      else highThreshold category
    | none => highThreshold category

/-- `allowedBucketsForZoom(z)` of `qa_map.js` and `part_000` (identical). -/
def allowedBucketsForZoom (z : ℚ) : List String :=
  if z < 5.8 then ["S"]
  else if z < 6.4 then ["S", "A"]
  else if z < 7 then ["S", "A", "B"]
  else ["S", "A", "B", "C"]

/-- `!props.bucket || !allowed.has(props.bucket)` negated: the bucket is
present, truthy, and a member of the allowed set. -/
def bucketAllowed (allowed : List String) (p : Props) : Bool :=
  match p.bucket with
  | none => false
  | some b => if b = "" then false else allowed.contains b

/-- The candidate filter predicate, textually identical in `qa_map.js`
(`updatePlaces`) and `part_000` (`placeLabelCandidates`): allowed bucket,
acceptable tags, at least two coordinates, and position inside the viewport
bounds (`bounds.contains([coords[1], coords[0]])`, abstracted as
`inBounds lat lon`). -/
def candOk (mode : String) (inBounds : ℚ → ℚ → Bool) (zoom : ℚ)
    (f : Feature) : Bool :=
  bucketAllowed (allowedBucketsForZoom zoom) f.props &&
  coreTagOk mode (effTags f.props) &&
  decide (2 ≤ f.coords.length) &&
  inBounds (f.coords.getD 1 0) (f.coords.getD 0 0)

/-- `bucketRank * 10000 + importance` with the `|| 0` fallbacks. -/
def priorityOf (p : Props) : ℚ :=
  p.bucket_rank.getD 0 * 10000 + p.importance.getD 0

/-- The projected anchor
`mapRef.latLngToContainerPoint([coords[1], coords[0]])`; the projection
`proj lat lon` is abstract. -/
def basePtOf (proj : ℚ → ℚ → Pt) (f : Feature) : Pt :=
  proj (f.coords.getD 1 0) (f.coords.getD 0 0)

/-- The options both S-tier placement loops pass to `placeWithOffsets`
(identical constants in `qa_map.js` `updatePlaces` and `part_000`
`buildPlaceLayers`). -/
def sOpts : PlaceOpts :=
  { labelW := 90, labelH := 18, maxRadius := 72, step := 6, angleStep := 45
    forceOffsetOnOverlap := true }

/-- The top-tier placement loop (identical in `qa_map.js` and `part_000`):
each S feature is placed by `placeWithOffsets` and its box is pushed onto
the occupied list unconditionally. -/
def sLoop (cosd sind : ℚ → ℚ) (proj : ℚ → ℚ → Pt) (opts : PlaceOpts) :
    List Feature → List (Feature × Pt) × List Rect → List (Feature × Pt) × List Rect
  | [], st => st
  | f :: rest, (placed, occupied) =>
    let res := placeWithOffsets cosd sind (basePtOf proj f) occupied opts
    sLoop cosd sind proj opts rest (placed ++ [(f, res.1)], occupied ++ [res.2])

/-- The top-tier placement loop annotated with a ghost flag per accepted
entry: the flag records whether, at acceptance time, the probe space was
exhausted (`exhaustedSearch`), i.e. whether the entry was accepted through
the `forceOffsetOnOverlap` fallback with a still-overlapping box.  The flag
does not influence the computation; projecting it away yields `sLoop`. -/
def sLoopF (cosd sind : ℚ → ℚ) (proj : ℚ → ℚ → Pt) (opts : PlaceOpts) :
    List Feature → List (Feature × Pt × Bool) × List Rect →
      List (Feature × Pt × Bool) × List Rect
  | [], st => st
  | f :: rest, (placed, occupied) =>
    let res := placeWithOffsets cosd sind (basePtOf proj f) occupied opts
    sLoopF cosd sind proj opts rest
      (placed ++ [(f, res.1, exhaustedSearch cosd sind (basePtOf proj f) occupied opts)],
       occupied ++ [res.2])

/-- Verification vocabulary for the no-overlap invariant: a later entry `b`
that was not accepted through the exhausted-search fallback (`b` flag
`false`) has a label box disjoint from the earlier entry `a`'s box. -/
def noOverlapUnlessFlag (w hgt : ℚ) (a b : Feature × Pt × Bool) : Prop :=
  b.2.2 = false → rectsOverlap (rectForPoint a.2.1 w hgt) (rectForPoint b.2.1 w hgt) = false

end Declutter

namespace Part000

open Declutter

/-- A sorted-candidate record `{ f, priority }` of `part_000`'s
`placeLabelCandidates`. -/
structure Cand where
  f : Feature
  priority : ℚ
deriving DecidableEq, Repr

/-- `placeLabelCandidates(features, mapRef)` of `part_000`: filter, map to
`{f, priority}`, then `.sort((a, b) => b.priority - a.priority)`.  JavaScript
`Array.prototype.sort` is stable; the comparator is modelled by the stable
`List.mergeSort` with `le a b ↔ cmp(a,b) ≤ 0 ↔ b.priority ≤ a.priority`.
There is no tie-break: equal-priority candidates keep their input order. -/
def placeLabelCandidates (features : List Feature) (inBounds : ℚ → ℚ → Bool)
    (zoom : ℚ) : List Cand :=
  ((features.filter (candOk CORE_TAG_MODE inBounds zoom)).map
    (fun f => { f := f, priority := priorityOf f.props })).mergeSort
    (fun a b => decide (b.priority ≤ a.priority))

/-- `maxPlacesForZoom(z)` of `part_000`: the scan over
`PLACE_LIMITS = [{zoom:6, limit:200}, {zoom:7, limit:220}, {zoom:99,
limit:400}]` with default `1000`. -/
def maxPlacesForZoom (z : ℚ) : ℕ :=
  if z < 6 then 200 else if z < 7 then 220 else if z < 99 then 400 else 1000

/-- The remaining-tier loop of `part_000`'s `buildPlaceLayers`: stop when the
budget is reached; otherwise accept the feature at its unshifted anchor
exactly when its box overlaps no occupied box (the `hit` loop with `break`
is `List.any`), pushing the box onto the occupied list. -/
def otherLoop (proj : ℚ → ℚ → Pt) (cap : ℕ) :
    List Feature → List (Feature × Pt) × List Rect → List (Feature × Pt) × List Rect
  | [], st => st
  | f :: rest, (placed, occupied) =>
    if cap ≤ placed.length then (placed, occupied)
    else
      let pt := basePtOf proj f
      let rect := rectForPoint pt 90 18
      if occupied.any (fun r => rectsOverlap rect r) then
        otherLoop proj cap rest (placed, occupied)
      else
        otherLoop proj cap rest (placed ++ [(f, pt)], occupied ++ [rect])

/-- The `placed` list computed by `part_000`'s `buildPlaceLayers` (the part of
the function up to rendering): candidates are split into S and non-S
(preserving order), every S feature is placed via `placeWithOffsets`
(budget not consulted), then — only when slots remain — non-S features are
added by the reject-on-overlap loop up to the budget. -/
def buildPlaceLayersPlaced (cosd sind : ℚ → ℚ) (proj : ℚ → ℚ → Pt)
    (inBounds : ℚ → ℚ → Bool) (zoom : ℚ) (features : List Feature) :
    List (Feature × Pt) :=
  let candidates := placeLabelCandidates features inBounds zoom
  let parts := candidates.partition (fun c => c.f.props.bucket = some "S")
  let sLabels := parts.1.map (fun c => c.f)
  let otherLabels := parts.2.map (fun c => c.f)
  let st := sLoop cosd sind proj sOpts sLabels ([], [])
  let remaining := maxPlacesForZoom zoom - st.1.length
  if 0 < remaining then (otherLoop proj (maxPlacesForZoom zoom) otherLabels st).1
  else st.1

/-- The remaining-tier loop annotated with a ghost flag per accepted entry
(always `false`: this loop accepts only overlap-free boxes).  The flag does
not influence the computation; projecting it away yields `otherLoop`. -/
def otherLoopF (proj : ℚ → ℚ → Pt) (cap : ℕ) :
    List Feature → List (Feature × Pt × Bool) × List Rect →
      List (Feature × Pt × Bool) × List Rect
  | [], st => st
  | f :: rest, (placed, occupied) =>
    if cap ≤ placed.length then (placed, occupied)
    else
      let pt := basePtOf proj f
      let rect := rectForPoint pt 90 18
      if occupied.any (fun r => rectsOverlap rect r) then
        otherLoopF proj cap rest (placed, occupied)
      else
        otherLoopF proj cap rest (placed ++ [(f, pt, false)], occupied ++ [rect])

/-- `buildPlaceLayersPlaced` annotated with the ghost exhausted-search flag
on every entry; projecting the flag away yields `buildPlaceLayersPlaced`. -/
def buildPlaceLayersFlagged (cosd sind : ℚ → ℚ) (proj : ℚ → ℚ → Pt)
    (inBounds : ℚ → ℚ → Bool) (zoom : ℚ) (features : List Feature) :
    List (Feature × Pt × Bool) :=
  let candidates := placeLabelCandidates features inBounds zoom
  let parts := candidates.partition (fun c => c.f.props.bucket = some "S")
  let sLabels := parts.1.map (fun c => c.f)
  let otherLabels := parts.2.map (fun c => c.f)
  let st := sLoopF cosd sind proj sOpts sLabels ([], [])
  let remaining := maxPlacesForZoom zoom - st.1.length
  if 0 < remaining then (otherLoopF proj (maxPlacesForZoom zoom) otherLabels st).1
  else st.1

end Part000

namespace QaMap

open Declutter

/-- `maxPlacesForZoom(zoom)` of `qa_map.js`. -/
def maxPlacesForZoom (zoom : ℚ) : ℕ :=
  if zoom < 5 then 150 else if zoom < 7 then 400 else if zoom < 9 then 800 else 1600

/-- The sort comparator of `qa_map.js` `updatePlaces` as a `≤`-test:
`cmp(a,b) = (bPriority !== aPriority) ? bPriority - aPriority :
aName.localeCompare(bName)`, so `cmp(a,b) ≤ 0` is the relation below.
`nameCmp` abstracts `String.prototype.localeCompare`, whose collation is
locale/host dependent. -/
def qaLe (nameCmp : String → String → Int) (a b : Feature) : Bool :=
  let ap := priorityOf a.props
  let bp := priorityOf b.props
  if bp ≠ ap then decide (bp ≤ ap)
  else decide (nameCmp (nameOf a.props) (nameOf b.props) ≤ 0)

/-- The `placed` list computed by `qa_map.js` `updatePlaces` (the part of the
function up to rendering): filter, stable sort, truncate to the budget,
split into S and non-S, place every S feature via `placeWithOffsets`, then
append every non-S feature at its unshifted anchor — with no overlap test
and no further budget test (only a repeated `coords.length < 2` guard). -/
def updatePlacesPlaced (cosd sind : ℚ → ℚ) (proj : ℚ → ℚ → Pt)
    (inBounds : ℚ → ℚ → Bool) (nameCmp : String → String → Int)
    (zoom : ℚ) (features : List Feature) : List (Feature × Pt) :=
  let candidates := features.filter (candOk CORE_TAG_MODE inBounds zoom)
  let visible := (candidates.mergeSort (qaLe nameCmp)).take (maxPlacesForZoom zoom)
  let parts := visible.partition (fun f => f.props.bucket = some "S")
  let st := sLoop cosd sind proj sOpts parts.1 ([], [])
  st.1 ++ parts.2.filterMap (fun f =>
    if f.coords.length < 2 then none else some (f, basePtOf proj f))

end QaMap

namespace Part001

open Declutter

/-- The `for (const [dx, dy] of offsets)` loop of `part_001`'s
`placeWithOffsets`: returns the first offset position whose box overlaps no
occupied box (the inner `hit` loop with `break` is `List.any`); when all
offsets are hit it keeps the original anchor. -/
def offsetLoop (basePt : Pt) (occupied : List Rect) (labelW labelH : ℚ) :
    List (ℚ × ℚ) → Pt × Rect
  | [] => (basePt, rectForPoint basePt labelW labelH)
  | (dx, dy) :: rest =>
    let pt : Pt := { x := basePt.x + dx, y := basePt.y + dy }
    let rect := rectForPoint pt labelW labelH
    if occupied.any (fun r => rectsOverlap rect r) then
      offsetLoop basePt occupied labelW labelH rest
    else (pt, rect)

/-- `placeWithOffsets` of `unnamed/part_001`: instead of a radial search it
probes a fixed list of nine offsets `[0,0], [maxShift,0], [-maxShift,0],
[0,maxShift], [0,-maxShift], [maxShift,maxShift], [-maxShift,maxShift],
[maxShift,-maxShift], [-maxShift,-maxShift]` (defaults `labelW 90`,
`labelH 18`, `maxShift 14`) and returns the first whose box overlaps no
occupied box, falling back to the unshifted anchor. -/
def placeWithOffsets (basePt : Pt) (occupied : List Rect)
    (labelW : ℚ := 90) (labelH : ℚ := 18) (maxShift : ℚ := 14) : Pt × Rect :=
  offsetLoop basePt occupied labelW labelH
    [(0, 0), (maxShift, 0), (-maxShift, 0), (0, maxShift), (0, -maxShift),
     (maxShift, maxShift), (-maxShift, maxShift), (maxShift, -maxShift),
     (-maxShift, -maxShift)]

end Part001

namespace Fixtures

open Declutter

/-- A rational stand-in for `Math.cos` at degree multiples of 45: it has the
exact values at the axis angles (0/90/180/270) and the correct sign and an
approximate magnitude (7/10 ≈ √2/2) at the diagonal angles — sufficient for
the concrete overlap computations below, which never depend on the exact
diagonal magnitude. -/
def cosT : ℚ → ℚ := fun a =>
  if a = 0 then 1 else if a = 45 then 7/10 else if a = 90 then 0
  else if a = 135 then -7/10 else if a = 180 then -1 else if a = 225 then -7/10
  else if a = 270 then 0 else if a = 315 then 7/10 else 1

/-- Rational stand-in for `Math.sin` at degree multiples of 45; see `cosT`. -/
def sinT : ℚ → ℚ := fun a =>
  if a = 0 then 0 else if a = 45 then 7/10 else if a = 90 then 1
  else if a = 135 then 7/10 else if a = 180 then 0 else if a = 225 then -7/10
  else if a = 270 then -1 else if a = 315 then -7/10 else 0

/-- A projection placing longitude on x and latitude on y. -/
def idProj : ℚ → ℚ → Pt := fun lat lon => { x := lon, y := lat }

/-- A viewport-bounds test accepting every position. -/
def allBounds : ℚ → ℚ → Bool := fun _ _ => true

/-- A trivial stand-in for `localeCompare` (never consulted in the concrete
runs below, whose priorities are distinct). -/
def zeroCmp : String → String → Int := fun _ _ => 0

/-- Trigonometric stand-in for runs that never reach the probe loop. -/
def noTrig : ℚ → ℚ := fun _ => 0

/-- A small occupied box around the origin. -/
def tinyRect : Rect := { x1 := -1, y1 := -1, x2 := 1, y2 := 1 }

/-- An occupied box covering the whole screen: every probe overlaps it. -/
def giantRect : Rect :=
  { x1 := -1000000, y1 := -1000000, x2 := 1000000, y2 := 1000000 }

/-- An S-bucket feature at the origin (rank 3). -/
def fS : Feature :=
  { props := { bucket := some "S", tags := some ["x"], bucket_rank := some 3 }
    coords := [0, 0] }

/-- An A-bucket feature at the same origin position (rank 2). -/
def fA : Feature :=
  { props := { bucket := some "A", tags := some ["x"], bucket_rank := some 2 }
    coords := [0, 0] }

/-- An S-bucket feature named "b" (default priority 0). -/
def fNameB : Feature :=
  { props := { bucket := some "S", tags := some ["x"], display_name := some "b" }
    coords := [0, 0] }

/-- An S-bucket feature named "a" (default priority 0). -/
def fNameA : Feature :=
  { props := { bucket := some "S", tags := some ["x"], display_name := some "a" }
    coords := [1, 0] }

/-- The i-th of a family of far-apart S-bucket features. -/
def mkF : ℕ → Feature := fun i =>
  { props := { bucket := some "S", tags := some ["x"] }
    coords := [1000 * (i : ℚ), 0] }

/-- 201 far-apart S-bucket candidates: one more than `part_000`'s budget of
200 at zoom levels below 6. -/
def gen201 : List Feature := (List.range 201).map mkF

/-- A feature with a malformed (single-entry) coordinate array. -/
def badCoordFeature : Feature :=
  { props := { bucket := some "S", tags := some ["x"] }, coords := [0] }

/-- A feature whose `tags` is the empty array (its `core_tags` is non-empty,
but JavaScript `props.tags || props.core_tags` picks the empty array, which
is truthy). -/
def emptyTagFeature : Feature :=
  { props := { bucket := some "S", tags := some [], core_tags := some ["x"] }
    coords := [0, 0] }

end Fixtures

namespace Declutter

lemma rectsOverlap_comm (a b : Rect) : rectsOverlap a b = rectsOverlap b a := by
  unfold rectsOverlap
  rw [Bool.eq_iff_iff]
  simp only [Bool.not_eq_true', Bool.or_eq_false_iff, decide_eq_false_iff_not, not_lt]
  tauto

/-- `countOverlaps rect occupied = 0` iff `rect` overlaps no occupied box. -/
lemma countOverlaps_eq_zero {rect : Rect} {occupied : List Rect} :
    countOverlaps rect occupied = 0 ↔ ∀ r ∈ occupied, rectsOverlap rect r = false := by
  unfold countOverlaps
  rw [List.countP_eq_zero]
  simp

/-- Closed form of the radial loop: starting at `r` it visits
`r, r + step, …`, `iterCount` many values. -/
lemma radiiAux_eq_range (step maxRadius : ℚ) (hstep : 0 < step) (r : ℚ) :
    radiiAux step maxRadius hstep r =
      (List.range (iterCount step maxRadius r)).map (fun i : ℕ => r + step * (i : ℚ)) := by
  induction r using radiiAux.induct step maxRadius hstep with
  | case1 r h ih =>
    rw [radiiAux, dif_pos h, ih]
    have hcount : iterCount step maxRadius r = iterCount step maxRadius (r + step) + 1 := by
      unfold iterCount
      rw [if_pos h]
      by_cases h2 : r + step ≤ maxRadius
      · rw [if_pos h2]
        have hx1 : (1 : ℚ) ≤ (maxRadius - r) / step := by
          rw [le_div_iff₀ hstep]
          linarith
        have hfl : (1 : ℤ) ≤ ⌊(maxRadius - r) / step⌋ := by
          exact_mod_cast Int.le_floor.mpr (by exact_mod_cast hx1)
        have heq : (maxRadius - (r + step)) / step = (maxRadius - r) / step - 1 := by
          field_simp
          ring
        rw [heq, Int.floor_sub_one]
        omega
      · rw [if_neg h2]
        have hfl0 : ⌊(maxRadius - r) / step⌋ = 0 := by
          rw [Int.floor_eq_zero_iff]
          constructor
          · apply div_nonneg (by linarith) (le_of_lt hstep)
          · rw [div_lt_one hstep]
            linarith
        rw [hfl0]
        rfl
    rw [hcount, List.range_succ_eq_map, List.map_cons, List.map_map]
    have hhead : r + step * ((0 : ℕ) : ℚ) = r := by
      push_cast
      ring
    rw [hhead]
    congr 1
    apply List.map_congr_left
    intro i _
    simp only [Function.comp_apply]
    push_cast
    ring
  | case2 r h =>
    rw [radiiAux, dif_neg h]
    unfold iterCount
    rw [if_neg h]
    simp

/-- Closed form of the angle loop. -/
lemma anglesAux_eq_range (angleStep : ℚ) (hstep : 0 < angleStep) (a : ℚ) :
    anglesAux angleStep hstep a =
      (List.range (angleIterCount angleStep a)).map (fun i : ℕ => a + angleStep * (i : ℚ)) := by
  induction a using anglesAux.induct angleStep hstep with
  | case1 a h ih =>
    rw [anglesAux, dif_pos h, ih]
    have hcount : angleIterCount angleStep a = angleIterCount angleStep (a + angleStep) + 1 := by
      unfold angleIterCount
      rw [if_pos h]
      by_cases h2 : a + angleStep < 360
      · rw [if_pos h2]
        have hx1 : (0 : ℚ) < (360 - (a + angleStep)) / angleStep := by
          apply div_pos (by linarith) hstep
        have hfl : (0 : ℤ) < ⌈(360 - (a + angleStep)) / angleStep⌉ := by
          exact_mod_cast Int.lt_ceil.mpr (by exact_mod_cast hx1)
        have heq : (360 - (a + angleStep)) / angleStep = (360 - a) / angleStep - 1 := by
          field_simp
          ring
        have : ⌈(360 - (a + angleStep)) / angleStep⌉ = ⌈(360 - a) / angleStep⌉ - 1 := by
          rw [heq, Int.ceil_sub_one]
        omega
      · rw [if_neg h2]
        have hone : ⌈(360 - a) / angleStep⌉ = 1 := by
          have hlo : (0 : ℚ) < (360 - a) / angleStep := div_pos (by linarith) hstep
          have h1 : (0 : ℤ) < ⌈(360 - a) / angleStep⌉ := Int.lt_ceil.mpr (by exact_mod_cast hlo)
          have h2b : ⌈(360 - a) / angleStep⌉ ≤ 1 := by
            apply Int.ceil_le.mpr
            push_cast
            rw [div_le_one hstep]
            linarith
          omega
        rw [hone]
        rfl
    rw [hcount, List.range_succ_eq_map, List.map_cons, List.map_map]
    have hhead : a + angleStep * ((0 : ℕ) : ℚ) = a := by
      push_cast
      ring
    rw [hhead]
    congr 1
    apply List.map_congr_left
    intro i _
    simp only [Function.comp_apply]
    push_cast
    ring
  | case2 a h =>
    rw [anglesAux, dif_neg h]
    unfold angleIterCount
    rw [if_neg h]
    simp

/-- The radius values visited by `placeWithOffsets` are exactly the positive
multiples of `step` that do not exceed `maxRadius`, provided `0 < step`. -/
lemma mem_radii_iff {step maxRadius : ℚ} (hstep : 0 < step) (x : ℚ) :
    x ∈ radii step maxRadius ↔ ∃ k : ℕ, x = step * (k + 1) ∧ x ≤ maxRadius := by
  unfold radii
  rw [dif_pos hstep, radiiAux_eq_range]
  simp only [List.mem_map, List.mem_range]
  constructor
  · rintro ⟨i, hi, rfl⟩
    refine ⟨i, by push_cast; ring, ?_⟩
    unfold iterCount at hi
    by_cases hsm : step ≤ maxRadius
    · rw [if_pos hsm] at hi
      have hle : (i : ℤ) ≤ ⌊(maxRadius - step) / step⌋ := by omega
      have : (i : ℚ) ≤ (maxRadius - step) / step := le_trans (by exact_mod_cast hle) (Int.floor_le _)
      have := (le_div_iff₀ hstep).mp this
      linarith
    · rw [if_neg hsm] at hi
      omega
  · rintro ⟨k, rfl, hle⟩
    refine ⟨k, ?_, by push_cast; ring⟩
    unfold iterCount
    have hsm : step ≤ maxRadius := by nlinarith [Nat.cast_nonneg (α := ℚ) k]
    rw [if_pos hsm]
    have hq : (k : ℚ) ≤ (maxRadius - step) / step := by
      rw [le_div_iff₀ hstep]
      linarith
    have hk : (k : ℤ) ≤ ⌊(maxRadius - step) / step⌋ := Int.le_floor.mpr (by exact_mod_cast hq)
    omega

/-- The angle values visited by `placeWithOffsets` are exactly the
nonnegative multiples of `angleStep` below 360, provided `0 < angleStep`. -/
lemma mem_angles_iff {angleStep : ℚ} (hstep : 0 < angleStep) (x : ℚ) :
    x ∈ angles angleStep ↔ ∃ k : ℕ, x = angleStep * k ∧ x < 360 := by
  unfold angles
  rw [dif_pos hstep, anglesAux_eq_range]
  simp only [List.mem_map, List.mem_range]
  constructor
  · rintro ⟨i, hi, rfl⟩
    refine ⟨i, by push_cast; ring, ?_⟩
    unfold angleIterCount at hi
    rw [if_pos (by norm_num)] at hi
    have hlt : (i : ℤ) < ⌈(360 - 0) / angleStep⌉ := by omega
    have : (i : ℚ) < (360 - 0) / angleStep := by exact_mod_cast Int.lt_ceil.mp hlt
    have := (lt_div_iff₀ hstep).mp this
    linarith
  · rintro ⟨k, rfl, hlt⟩
    refine ⟨k, ?_, by push_cast; ring⟩
    unfold angleIterCount
    rw [if_pos (by norm_num)]
    have hq : (k : ℚ) < (360 - 0) / angleStep := by
      rw [lt_div_iff₀ hstep]
      linarith
    have hk : (k : ℤ) < ⌈(360 - 0) / angleStep⌉ := Int.lt_ceil.mpr (by exact_mod_cast hq)
    omega

/-- The radius sequence is strictly increasing. -/
lemma radii_sorted (step maxRadius : ℚ) : List.Sorted (· < ·) (radii step maxRadius) := by
  unfold radii
  split
  · rename_i hstep
    rw [radiiAux_eq_range]
    refine List.Pairwise.map _ ?_ (List.pairwise_lt_range _)
    intro i j hij
    have : (i : ℚ) < (j : ℚ) := by exact_mod_cast hij
    nlinarith
  · exact List.sorted_nil

/-- The angle sequence is strictly increasing. -/
lemma angles_sorted (angleStep : ℚ) : List.Sorted (· < ·) (angles angleStep) := by
  unfold angles
  split
  · rename_i hstep
    rw [anglesAux_eq_range]
    refine List.Pairwise.map _ ?_ (List.pairwise_lt_range _)
    intro i j hij
    have : (i : ℚ) < (j : ℚ) := by exact_mod_cast hij
    nlinarith
  · exact List.sorted_nil

/-- Every radius visited by the radial loop is positive. -/
lemma radii_pos {step maxRadius x : ℚ} (hx : x ∈ radii step maxRadius) : 0 < x := by
  unfold radii at hx
  by_cases hstep : 0 < step
  · rw [dif_pos hstep, radiiAux_eq_range] at hx
    simp only [List.mem_map, List.mem_range] at hx
    obtain ⟨i, _, rfl⟩ := hx
    have : (0 : ℚ) ≤ step * i := by positivity
    linarith
  · rw [dif_neg hstep] at hx
    simp at hx

/-- The probe loop returns, immediately, the first probe in the sequence
whose box has zero overlaps, whenever such a probe exists; the `best`
accumulator and the `force` flag are irrelevant to this case. -/
lemma searchLoop_first_zero (cosd sind : ℚ → ℚ) (basePt : Pt) (w h : ℚ)
    (occupied : List Rect) (force : Bool) :
    ∀ (l : List (ℚ × ℚ)) (best : Best) (r a : ℚ),
      l.find? (fun p => decide (countOverlaps
        (rectForPoint (probePt cosd sind basePt p.1 p.2) w h) occupied = 0)) = some (r, a) →
      searchLoop cosd sind basePt w h occupied force l best =
        .inr (probePt cosd sind basePt r a,
          rectForPoint (probePt cosd sind basePt r a) w h) := by
  intro l
  induction l with
  | nil => intro best r a hfind; simp at hfind
  | cons p rest ih =>
    intro best r a hfind
    obtain ⟨r0, a0⟩ := p
    by_cases hc : countOverlaps (rectForPoint (probePt cosd sind basePt r0 a0) w h) occupied = 0
    · rw [List.find?_cons_of_pos _ (by simpa using hc)] at hfind
      injection hfind with hfind
      have hr : r0 = r := congrArg Prod.fst hfind
      have ha : a0 = a := congrArg Prod.snd hfind
      subst hr
      subst ha
      simp only [searchLoop]
      rw [if_pos hc]
    · rw [List.find?_cons_of_neg _ (by simpa using hc)] at hfind
      simp only [searchLoop]
      rw [if_neg hc]
      exact ih _ r a hfind

/-- With `force` unset the probe loop, when it finds no zero-overlap
position, leaves the `best` accumulator untouched. -/
lemma searchLoop_no_force (cosd sind : ℚ → ℚ) (basePt : Pt) (w h : ℚ)
    (occupied : List Rect) :
    ∀ (l : List (ℚ × ℚ)) (best : Best),
      (∀ p ∈ l, countOverlaps
        (rectForPoint (probePt cosd sind basePt p.1 p.2) w h) occupied ≠ 0) →
      searchLoop cosd sind basePt w h occupied false l best = .inl best := by
  intro l
  induction l with
  | nil => intro best _; rfl
  | cons p rest ih =>
    intro best hall
    obtain ⟨r0, a0⟩ := p
    have hc := hall (r0, a0) (List.mem_cons_self _ _)
    simp only [searchLoop]
    rw [if_neg hc]
    have hguard : ¬(false = true ∧
        (countOverlaps (rectForPoint (probePt cosd sind basePt r0 a0) w h) occupied <
            best.overlaps ∨
          (countOverlaps (rectForPoint (probePt cosd sind basePt r0 a0) w h) occupied =
              best.overlaps ∧ r0 > best.dist))) := by
      rintro ⟨hfalse, -⟩
      exact Bool.false_ne_true hfalse
    rw [if_neg hguard]
    exact ih best (fun q hq => hall q (List.mem_cons_of_mem _ hq))

/-- With `force` set and no zero-overlap probe available, the probe loop
computes the running minimum of the overlap counts, breaking ties among
equal counts in favour of the larger radius; the resulting `best` record is
coherent (its `rect` is the box of its `pt`, its `overlaps` its own count,
its `dist` the radius it was taken at). -/
lemma searchLoop_exhausted_spec (cosd sind : ℚ → ℚ) (basePt : Pt) (w hgt : ℚ)
    (occupied : List Rect) :
    ∀ (l : List (ℚ × ℚ)) (b : Best),
      (∀ r a, (r, a) ∈ l → countOverlaps
        (rectForPoint (probePt cosd sind basePt r a) w hgt) occupied ≠ 0) →
      b.rect = rectForPoint b.pt w hgt →
      b.overlaps = countOverlaps b.rect occupied →
      ∃ b2, searchLoop cosd sind basePt w hgt occupied true l b = .inl b2 ∧
        b2.rect = rectForPoint b2.pt w hgt ∧
        b2.overlaps = countOverlaps b2.rect occupied ∧
        ((b2.pt = b.pt ∧ b2.dist = b.dist) ∨
          ∃ r a, (r, a) ∈ l ∧ b2.pt = probePt cosd sind basePt r a ∧ b2.dist = r) ∧
        b2.overlaps ≤ b.overlaps ∧
        (b2.overlaps = b.overlaps → b.dist ≤ b2.dist) ∧
        (∀ r a, (r, a) ∈ l → b2.overlaps ≤ countOverlaps
          (rectForPoint (probePt cosd sind basePt r a) w hgt) occupied) ∧
        (∀ r a, (r, a) ∈ l → countOverlaps
          (rectForPoint (probePt cosd sind basePt r a) w hgt) occupied = b2.overlaps →
          r ≤ b2.dist) := by
  intro l
  induction l with
  | nil =>
    intro b _ hrect hover
    refine ⟨b, rfl, hrect, hover, Or.inl ⟨rfl, rfl⟩, le_refl _, fun _ => le_refl _, ?_, ?_⟩
    · intro r a hmem
      simp at hmem
    · intro r a hmem
      simp at hmem
  | cons p rest ih =>
    intro b hall hrect hover
    obtain ⟨r0, a0⟩ := p
    have hc0 : countOverlaps (rectForPoint (probePt cosd sind basePt r0 a0) w hgt)
        occupied ≠ 0 := hall r0 a0 (List.mem_cons_self _ _)
    have hallRest : ∀ r a, (r, a) ∈ rest → countOverlaps
        (rectForPoint (probePt cosd sind basePt r a) w hgt) occupied ≠ 0 :=
      fun r a hmem => hall r a (List.mem_cons_of_mem _ hmem)
    simp only [searchLoop]
    rw [if_neg hc0]
    by_cases hupd : countOverlaps (rectForPoint (probePt cosd sind basePt r0 a0) w hgt)
        occupied < b.overlaps ∨
        (countOverlaps (rectForPoint (probePt cosd sind basePt r0 a0) w hgt) occupied =
          b.overlaps ∧ r0 > b.dist)
    · rw [if_pos (And.intro trivial hupd)]
      obtain ⟨b2, hrun, h1, h2, h3, h4, h5, h6, h7⟩ :=
        ih { pt := probePt cosd sind basePt r0 a0
             rect := rectForPoint (probePt cosd sind basePt r0 a0) w hgt
             overlaps := countOverlaps
               (rectForPoint (probePt cosd sind basePt r0 a0) w hgt) occupied
             dist := r0 } hallRest rfl rfl
      simp only at h3 h4 h5
      refine ⟨b2, hrun, h1, h2, ?_, ?_, ?_, ?_, ?_⟩
      · rcases h3 with ⟨hpt, hdist⟩ | ⟨r, a, hmem, hqpt, hqr⟩
        · exact Or.inr ⟨r0, a0, List.mem_cons_self _ _, hpt, hdist⟩
        · exact Or.inr ⟨r, a, List.mem_cons_of_mem _ hmem, hqpt, hqr⟩
      · rcases hupd with hlt | ⟨hceq, -⟩
        · omega
        · omega
      · intro heq
        rcases hupd with hlt | ⟨hceq, hrd⟩
        · omega
        · have hd : r0 ≤ b2.dist := h5 (by omega)
          linarith
      · intro r a hmem
        rcases List.mem_cons.mp hmem with hq0 | hqrest
        · have hr : r = r0 := congrArg Prod.fst hq0
          have ha : a = a0 := congrArg Prod.snd hq0
          rw [hr, ha]
          exact h4
        · exact h6 r a hqrest
      · intro r a hmem hqc
        rcases List.mem_cons.mp hmem with hq0 | hqrest
        · have hr : r = r0 := congrArg Prod.fst hq0
          have ha : a = a0 := congrArg Prod.snd hq0
          rw [hr, ha] at hqc
          rw [hr]
          exact h5 (by omega)
        · exact h7 r a hqrest hqc
    · rw [if_neg (by rintro ⟨-, hx⟩; exact hupd hx)]
      push_neg at hupd
      obtain ⟨hble, htie⟩ := hupd
      obtain ⟨b2, hrun, h1, h2, h3, h4, h5, h6, h7⟩ := ih b hallRest hrect hover
      refine ⟨b2, hrun, h1, h2, ?_, h4, h5, ?_, ?_⟩
      · rcases h3 with hsame | ⟨r, a, hmem, hqpt, hqr⟩
        · exact Or.inl hsame
        · exact Or.inr ⟨r, a, List.mem_cons_of_mem _ hmem, hqpt, hqr⟩
      · intro r a hmem
        rcases List.mem_cons.mp hmem with hq0 | hqrest
        · have hr : r = r0 := congrArg Prod.fst hq0
          have ha : a = a0 := congrArg Prod.snd hq0
          rw [hr, ha]
          omega
        · exact h6 r a hqrest
      · intro r a hmem hqc
        rcases List.mem_cons.mp hmem with hq0 | hqrest
        · have hr : r = r0 := congrArg Prod.fst hq0
          have ha : a = a0 := congrArg Prod.snd hq0
          rw [hr, ha] at hqc
          have hc_eq_b : countOverlaps
              (rectForPoint (probePt cosd sind basePt r0 a0) w hgt) occupied =
              b.overlaps := by omega
          have hr0 : r0 ≤ b.dist := htie hc_eq_b
          have hbd : b.dist ≤ b2.dist := h5 (by omega)
          rw [hr]
          linarith
        · exact h7 r a hqrest hqc

/-- When the centered box is free, `placeWithOffsets` accepts it as-is. -/
lemma placeWithOffsets_base_free (cosd sind : ℚ → ℚ) (basePt : Pt)
    (occupied : List Rect) (opts : PlaceOpts)
    (h0 : countOverlaps (rectForPoint basePt opts.labelW opts.labelH) occupied = 0) :
    placeWithOffsets cosd sind basePt occupied opts =
      (basePt, rectForPoint basePt opts.labelW opts.labelH) := by
  unfold placeWithOffsets
  rw [if_pos h0]

/-- When the centered box is not free but some probe position is,
`placeWithOffsets` returns the first such probe of the probe sequence. -/
lemma placeWithOffsets_first_zero (cosd sind : ℚ → ℚ) (basePt : Pt)
    (occupied : List Rect) (opts : PlaceOpts) (r a : ℚ)
    (hbase : countOverlaps (rectForPoint basePt opts.labelW opts.labelH) occupied ≠ 0)
    (hfind : (probeSeq opts.step opts.maxRadius opts.angleStep).find?
      (zeroOverlapProbe cosd sind basePt opts.labelW opts.labelH occupied) = some (r, a)) :
    placeWithOffsets cosd sind basePt occupied opts =
      (probePt cosd sind basePt r a,
       rectForPoint (probePt cosd sind basePt r a) opts.labelW opts.labelH) := by
  unfold placeWithOffsets
  rw [if_neg hbase]
  rw [searchLoop_first_zero cosd sind basePt opts.labelW opts.labelH occupied
    opts.forceOffsetOnOverlap _ _ r a hfind]

/-- Every probe sequence either contains a first zero-overlap probe or
consists only of overlapping positions. -/
lemma probe_dichotomy (cosd sind : ℚ → ℚ) (basePt : Pt) (w hgt : ℚ)
    (occupied : List Rect) (l : List (ℚ × ℚ)) :
    (∃ r a, l.find? (zeroOverlapProbe cosd sind basePt w hgt occupied) = some (r, a)) ∨
    (∀ r a, (r, a) ∈ l → countOverlaps
      (rectForPoint (probePt cosd sind basePt r a) w hgt) occupied ≠ 0) := by
  cases hfind : l.find? (zeroOverlapProbe cosd sind basePt w hgt occupied) with
  | some p => exact Or.inl ⟨p.1, p.2, by simpa using hfind⟩
  | none =>
    refine Or.inr (fun r a hmem => ?_)
    have := List.find?_eq_none.mp hfind (r, a) hmem
    simpa [zeroOverlapProbe] using this

/-- The result box of the radial `placeWithOffsets` is always the label box
centered on the result point. -/
lemma placeWithOffsets_snd_eq (cosd sind : ℚ → ℚ) (basePt : Pt)
    (occupied : List Rect) (opts : PlaceOpts) :
    (placeWithOffsets cosd sind basePt occupied opts).2 =
      rectForPoint (placeWithOffsets cosd sind basePt occupied opts).1
        opts.labelW opts.labelH := by
  by_cases h0 : countOverlaps (rectForPoint basePt opts.labelW opts.labelH) occupied = 0
  · rw [placeWithOffsets_base_free cosd sind basePt occupied opts h0]
  · rcases probe_dichotomy cosd sind basePt opts.labelW opts.labelH occupied
      (probeSeq opts.step opts.maxRadius opts.angleStep) with ⟨r, a, hfind⟩ | hall
    · rw [placeWithOffsets_first_zero cosd sind basePt occupied opts r a h0 hfind]
    · unfold placeWithOffsets
      rw [if_neg h0]
      cases hforce : opts.forceOffsetOnOverlap with
      | false =>
        rw [searchLoop_no_force cosd sind basePt opts.labelW opts.labelH occupied _ _
          (fun p hp => hall p.1 p.2 (by simpa using hp))]
        simp
      | true =>
        obtain ⟨b2, hrun, h1, -⟩ := searchLoop_exhausted_spec cosd sind basePt
          opts.labelW opts.labelH occupied
          (probeSeq opts.step opts.maxRadius opts.angleStep)
          { pt := basePt, rect := rectForPoint basePt opts.labelW opts.labelH
            overlaps := countOverlaps (rectForPoint basePt opts.labelW opts.labelH) occupied
            dist := 0 }
          (fun r a hmem => hall r a hmem) rfl rfl
        rw [hrun]
        simp only []
        simpa using h1

/-- If the probe space is not exhausted, the accepted box overlaps no
occupied box. -/
lemma placeWithOffsets_zero_of_not_exhausted (cosd sind : ℚ → ℚ) (basePt : Pt)
    (occupied : List Rect) (opts : PlaceOpts)
    (hne : exhaustedSearch cosd sind basePt occupied opts = false) :
    countOverlaps (placeWithOffsets cosd sind basePt occupied opts).2 occupied = 0 := by
  unfold exhaustedSearch at hne
  rw [Bool.and_eq_false_iff] at hne
  by_cases h0 : countOverlaps (rectForPoint basePt opts.labelW opts.labelH) occupied = 0
  · rw [placeWithOffsets_base_free cosd sind basePt occupied opts h0]
    exact h0
  · have hex : ∃ p ∈ probeSeq opts.step opts.maxRadius opts.angleStep,
        countOverlaps (rectForPoint (probePt cosd sind basePt p.1 p.2)
          opts.labelW opts.labelH) occupied = 0 := by
      rcases hne with hb | hl
      · exact absurd (by simpa using hb) h0
      · rcases List.all_eq_false.mp hl with ⟨p, hmem, hp⟩
        exact ⟨p, hmem, by simpa using hp⟩
    rcases probe_dichotomy cosd sind basePt opts.labelW opts.labelH occupied
      (probeSeq opts.step opts.maxRadius opts.angleStep) with ⟨r, a, hfind⟩ | hall
    · rw [placeWithOffsets_first_zero cosd sind basePt occupied opts r a h0 hfind]
      have := List.find?_some hfind
      simpa [zeroOverlapProbe] using this
    · obtain ⟨p, hmem, hp⟩ := hex
      exact absurd hp (hall p.1 p.2 (by simpa using hmem))

/-- The features of the top-tier loop's output: every S feature is accepted,
in order. -/
lemma sLoop_features (cosd sind : ℚ → ℚ) (proj : ℚ → ℚ → Pt) (opts : PlaceOpts) :
    ∀ (fs : List Feature) (placed : List (Feature × Pt)) (occ : List Rect),
      ((sLoop cosd sind proj opts fs (placed, occ)).1).map Prod.fst =
        placed.map Prod.fst ++ fs := by
  intro fs
  induction fs with
  | nil => intro placed occ; simp [sLoop]
  | cons f rest ih =>
    intro placed occ
    simp only [sLoop]
    rw [ih]
    simp

/-- The length of the top-tier loop's output. -/
lemma sLoop_length (cosd sind : ℚ → ℚ) (proj : ℚ → ℚ → Pt) (opts : PlaceOpts)
    (fs : List Feature) (placed : List (Feature × Pt)) (occ : List Rect) :
    ((sLoop cosd sind proj opts fs (placed, occ)).1).length = placed.length + fs.length := by
  have h := congrArg List.length (sLoop_features cosd sind proj opts fs placed occ)
  simpa using h

/-- Entries produced by the remaining-tier loop either were already placed
or carry a feature of the processed list. -/
lemma otherLoop_entries (proj : ℚ → ℚ → Pt) (cap : ℕ) :
    ∀ (fs : List Feature) (placed : List (Feature × Pt)) (occ : List Rect),
      ∀ e ∈ (Part000.otherLoop proj cap fs (placed, occ)).1,
        e ∈ placed ∨ e.1 ∈ fs := by
  intro fs
  induction fs with
  | nil =>
    intro placed occ e hmem
    exact Or.inl hmem
  | cons f rest ih =>
    intro placed occ e hmem
    simp only [Part000.otherLoop] at hmem
    by_cases hcap : cap ≤ placed.length
    · rw [if_pos hcap] at hmem
      exact Or.inl hmem
    · rw [if_neg hcap] at hmem
      by_cases hhit : occ.any (fun r => rectsOverlap (rectForPoint (basePtOf proj f) 90 18) r)
      · rw [if_pos hhit] at hmem
        rcases ih placed occ e hmem with h | h
        · exact Or.inl h
        · exact Or.inr (List.mem_cons_of_mem _ h)
      · rw [if_neg hhit] at hmem
        rcases ih _ _ e hmem with h | h
        · rcases List.mem_append.mp h with h2 | h2
          · exact Or.inl h2
          · refine Or.inr ?_
            have : e = (f, basePtOf proj f) := by simpa using h2
            rw [this]
            exact List.mem_cons_self _ _
        · exact Or.inr (List.mem_cons_of_mem _ h)

/-- The remaining-tier loop never exceeds the budget `cap`, provided it
starts within it. -/
lemma otherLoop_length_le (proj : ℚ → ℚ → Pt) (cap : ℕ) :
    ∀ (fs : List Feature) (placed : List (Feature × Pt)) (occ : List Rect),
      placed.length ≤ cap →
      ((Part000.otherLoop proj cap fs (placed, occ)).1).length ≤ cap := by
  intro fs
  induction fs with
  | nil => intro placed occ hle; exact hle
  | cons f rest ih =>
    intro placed occ hle
    simp only [Part000.otherLoop]
    by_cases hcap : cap ≤ placed.length
    · rw [if_pos hcap]
      exact hle
    · rw [if_neg hcap]
      by_cases hhit : occ.any (fun r => rectsOverlap (rectForPoint (basePtOf proj f) 90 18) r)
      · rw [if_pos hhit]
        exact ih placed occ hle
      · rw [if_neg hhit]
        refine ih _ _ ?_
        simp only [List.length_append, List.length_cons, List.length_nil]
        omega

/-- The remaining-tier loop never removes entries. -/
lemma otherLoop_length_ge (proj : ℚ → ℚ → Pt) (cap : ℕ) :
    ∀ (fs : List Feature) (placed : List (Feature × Pt)) (occ : List Rect),
      placed.length ≤ ((Part000.otherLoop proj cap fs (placed, occ)).1).length := by
  intro fs
  induction fs with
  | nil => intro placed occ; exact le_refl _
  | cons f rest ih =>
    intro placed occ
    simp only [Part000.otherLoop]
    by_cases hcap : cap ≤ placed.length
    · rw [if_pos hcap]
    · rw [if_neg hcap]
      by_cases hhit : occ.any (fun r => rectsOverlap (rectForPoint (basePtOf proj f) 90 18) r)
      · rw [if_pos hhit]
        exact ih placed occ
      · rw [if_neg hhit]
        refine le_trans ?_ (ih _ _)
        simp

/-- Projecting the ghost flag away from the annotated top-tier loop yields
the plain top-tier loop. -/
lemma sLoopF_proj (cosd sind : ℚ → ℚ) (proj : ℚ → ℚ → Pt) (opts : PlaceOpts) :
    ∀ (fs : List Feature) (placed : List (Feature × Pt × Bool)) (occ : List Rect),
      sLoop cosd sind proj opts fs (placed.map (fun e => (e.1, e.2.1)), occ) =
        (((sLoopF cosd sind proj opts fs (placed, occ)).1).map (fun e => (e.1, e.2.1)),
         (sLoopF cosd sind proj opts fs (placed, occ)).2) := by
  intro fs
  induction fs with
  | nil => intro placed occ; simp [sLoop, sLoopF]
  | cons f rest ih =>
    intro placed occ
    simp only [sLoop, sLoopF]
    rw [← ih]
    simp

/-- Entries of the annotated top-tier loop either were already placed or
carry a feature of the processed list. -/
lemma sLoopF_entries (cosd sind : ℚ → ℚ) (proj : ℚ → ℚ → Pt) (opts : PlaceOpts) :
    ∀ (fs : List Feature) (placed : List (Feature × Pt × Bool)) (occ : List Rect),
      ∀ e ∈ (sLoopF cosd sind proj opts fs (placed, occ)).1, e ∈ placed ∨ e.1 ∈ fs := by
  intro fs
  induction fs with
  | nil => intro placed occ e hmem; exact Or.inl hmem
  | cons f rest ih =>
    intro placed occ e hmem
    simp only [sLoopF] at hmem
    rcases ih _ _ e hmem with h | h
    · rcases List.mem_append.mp h with h2 | h2
      · exact Or.inl h2
      · refine Or.inr ?_
        have : e.1 = f := by
          have := List.mem_singleton.mp h2
          rw [this]
        rw [this]
        exact List.mem_cons_self _ _
    · exact Or.inr (List.mem_cons_of_mem _ h)

/-- The no-overlap invariant is preserved by the annotated top-tier loop:
only entries whose probe space was exhausted may overlap earlier boxes, and
the occupied list is exactly the list of accepted boxes. -/
lemma sLoopF_pairwise (cosd sind : ℚ → ℚ) (proj : ℚ → ℚ → Pt) (opts : PlaceOpts) :
    ∀ (fs : List Feature) (placed : List (Feature × Pt × Bool)) (occ : List Rect),
      occ = placed.map (fun e => rectForPoint e.2.1 opts.labelW opts.labelH) →
      List.Pairwise (noOverlapUnlessFlag opts.labelW opts.labelH) placed →
      List.Pairwise (noOverlapUnlessFlag opts.labelW opts.labelH)
        (sLoopF cosd sind proj opts fs (placed, occ)).1 ∧
      (sLoopF cosd sind proj opts fs (placed, occ)).2 =
        ((sLoopF cosd sind proj opts fs (placed, occ)).1).map
          (fun e => rectForPoint e.2.1 opts.labelW opts.labelH) := by
  intro fs
  induction fs with
  | nil =>
    intro placed occ hocc hpw
    exact ⟨hpw, hocc⟩
  | cons f rest ih =>
    intro placed occ hocc hpw
    simp only [sLoopF]
    set res := placeWithOffsets cosd sind (basePtOf proj f) occ opts with hres
    set flag := exhaustedSearch cosd sind (basePtOf proj f) occ opts with hflag
    refine ih (placed ++ [(f, res.1, flag)]) (occ ++ [res.2]) ?_ ?_
    · rw [List.map_append, ← hocc]
      simp only [List.map_cons, List.map_nil]
      have h2 : res.2 = rectForPoint res.1 opts.labelW opts.labelH :=
        placeWithOffsets_snd_eq cosd sind (basePtOf proj f) occ opts
      rw [h2]
    · rw [List.pairwise_append]
      refine ⟨hpw, List.pairwise_singleton _ _, ?_⟩
      intro a hmema b hmemb
      have hb : b = (f, res.1, flag) := List.mem_singleton.mp hmemb
      rw [hb]
      intro hfl
      have hne : exhaustedSearch cosd sind (basePtOf proj f) occ opts = false := by
        rw [← hflag]
        exact hfl
      have hzero := placeWithOffsets_zero_of_not_exhausted cosd sind
        (basePtOf proj f) occ opts hne
      rw [← hres] at hzero
      have hall := countOverlaps_eq_zero.mp hzero
      have hmem_occ : rectForPoint a.2.1 opts.labelW opts.labelH ∈ occ := by
        rw [hocc]
        exact List.mem_map_of_mem _ hmema
      have hfalse := hall _ hmem_occ
      have h2 : res.2 = rectForPoint res.1 opts.labelW opts.labelH :=
        placeWithOffsets_snd_eq cosd sind (basePtOf proj f) occ opts
      rw [h2] at hfalse
      rw [rectsOverlap_comm] at hfalse
      exact hfalse

/-- Projecting the ghost flag away from the annotated remaining-tier loop
yields the plain remaining-tier loop. -/
lemma otherLoopF_proj (proj : ℚ → ℚ → Pt) (cap : ℕ) :
    ∀ (fs : List Feature) (placed : List (Feature × Pt × Bool)) (occ : List Rect),
      Part000.otherLoop proj cap fs (placed.map (fun e => (e.1, e.2.1)), occ) =
        (((Part000.otherLoopF proj cap fs (placed, occ)).1).map (fun e => (e.1, e.2.1)),
         (Part000.otherLoopF proj cap fs (placed, occ)).2) := by
  intro fs
  induction fs with
  | nil => intro placed occ; simp [Part000.otherLoop, Part000.otherLoopF]
  | cons f rest ih =>
    intro placed occ
    simp only [Part000.otherLoop, Part000.otherLoopF, List.length_map]
    by_cases hcap : cap ≤ placed.length
    · rw [if_pos hcap, if_pos hcap]
    · rw [if_neg hcap, if_neg hcap]
      by_cases hhit : occ.any (fun r => rectsOverlap (rectForPoint (basePtOf proj f) 90 18) r)
      · rw [if_pos hhit, if_pos hhit]
        exact ih placed occ
      · rw [if_neg hhit, if_neg hhit]
        rw [← ih]
        simp

/-- Entries of the annotated remaining-tier loop either were already placed
or carry a feature of the processed list with the flag `false`. -/
lemma otherLoopF_entries (proj : ℚ → ℚ → Pt) (cap : ℕ) :
    ∀ (fs : List Feature) (placed : List (Feature × Pt × Bool)) (occ : List Rect),
      ∀ e ∈ (Part000.otherLoopF proj cap fs (placed, occ)).1,
        e ∈ placed ∨ (e.1 ∈ fs ∧ e.2.2 = false) := by
  intro fs
  induction fs with
  | nil => intro placed occ e hmem; exact Or.inl hmem
  | cons f rest ih =>
    intro placed occ e hmem
    simp only [Part000.otherLoopF] at hmem
    by_cases hcap : cap ≤ placed.length
    · rw [if_pos hcap] at hmem
      exact Or.inl hmem
    · rw [if_neg hcap] at hmem
      by_cases hhit : occ.any (fun r => rectsOverlap (rectForPoint (basePtOf proj f) 90 18) r)
      · rw [if_pos hhit] at hmem
        rcases ih placed occ e hmem with h | ⟨h1, h2⟩
        · exact Or.inl h
        · exact Or.inr ⟨List.mem_cons_of_mem _ h1, h2⟩
      · rw [if_neg hhit] at hmem
        rcases ih _ _ e hmem with h | ⟨h1, h2⟩
        · rcases List.mem_append.mp h with h2 | h2
          · exact Or.inl h2
          · have he : e = (f, basePtOf proj f, false) := List.mem_singleton.mp h2
            refine Or.inr ⟨?_, ?_⟩
            · rw [he]
              exact List.mem_cons_self _ _
            · rw [he]
        · exact Or.inr ⟨List.mem_cons_of_mem _ h1, h2⟩

/-- The no-overlap invariant is preserved by the annotated remaining-tier
loop: accepted entries overlap no earlier box (their flag is `false` and
they are only accepted when free). -/
lemma otherLoopF_pairwise (proj : ℚ → ℚ → Pt) (cap : ℕ) :
    ∀ (fs : List Feature) (placed : List (Feature × Pt × Bool)) (occ : List Rect),
      occ = placed.map (fun e => rectForPoint e.2.1 90 18) →
      List.Pairwise (noOverlapUnlessFlag 90 18) placed →
      List.Pairwise (noOverlapUnlessFlag 90 18)
        (Part000.otherLoopF proj cap fs (placed, occ)).1 := by
  intro fs
  induction fs with
  | nil =>
    intro placed occ hocc hpw
    exact hpw
  | cons f rest ih =>
    intro placed occ hocc hpw
    simp only [Part000.otherLoopF]
    by_cases hcap : cap ≤ placed.length
    · rw [if_pos hcap]
      exact hpw
    · rw [if_neg hcap]
      by_cases hhit : occ.any (fun r => rectsOverlap (rectForPoint (basePtOf proj f) 90 18) r)
      · rw [if_pos hhit]
        exact ih placed occ hocc hpw
      · rw [if_neg hhit]
        refine ih (placed ++ [(f, basePtOf proj f, false)]) (occ ++ [rectForPoint (basePtOf proj f) 90 18]) ?_ ?_
        · rw [List.map_append, ← hocc]
          simp
        · rw [List.pairwise_append]
          refine ⟨hpw, List.pairwise_singleton _ _, ?_⟩
          intro a hmema b hmemb
          have hb : b = (f, basePtOf proj f, false) := List.mem_singleton.mp hmemb
          rw [hb]
          intro hfl
          have hanyf : (occ.any fun r =>
              rectsOverlap (rectForPoint (basePtOf proj f) 90 18) r) = false := by
            simpa using hhit
          have hfree := List.any_eq_false.mp hanyf
          have hmem_occ : rectForPoint a.2.1 90 18 ∈ occ := by
            rw [hocc]
            exact List.mem_map_of_mem _ hmema
          have hfalse := hfree _ hmem_occ
          simp only [Bool.not_eq_true] at hfalse
          rw [rectsOverlap_comm] at hfalse
          exact hfalse

end Declutter

namespace Part000

open Declutter

/-- Sorted candidates carry features that pass the candidate filter. -/
lemma mem_candidates (features : List Feature) (inBounds : ℚ → ℚ → Bool) (zoom : ℚ)
    {c : Cand} (hc : c ∈ placeLabelCandidates features inBounds zoom) :
    c.f ∈ features ∧ candOk CORE_TAG_MODE inBounds zoom c.f = true := by
  unfold placeLabelCandidates at hc
  rw [List.mem_mergeSort, List.mem_map] at hc
  obtain ⟨f, hf, rfl⟩ := hc
  rw [List.mem_filter] at hf
  exact hf

/-- Every feature placed by `buildPlaceLayers` comes from the sorted
candidate list. -/
lemma mem_placed_features (cosd sind : ℚ → ℚ) (proj : ℚ → ℚ → Pt)
    (inBounds : ℚ → ℚ → Bool) (zoom : ℚ) (features : List Feature)
    {e : Feature × Pt}
    (he : e ∈ buildPlaceLayersPlaced cosd sind proj inBounds zoom features) :
    ∃ c ∈ placeLabelCandidates features inBounds zoom, c.f = e.1 := by
  unfold buildPlaceLayersPlaced at he
  simp only [List.partition_eq_filter_filter] at he
  set cands := placeLabelCandidates features inBounds zoom with hcands
  set sLabels := (cands.filter (fun c => decide (c.f.props.bucket = some "S"))).map
    (fun c => c.f) with hsl
  set otherLabels := (cands.filter (fun c => !decide (c.f.props.bucket = some "S"))).map
    (fun c => c.f) with hol
  have hS : ∀ g ∈ sLabels, ∃ c ∈ cands, c.f = g := by
    intro g hg
    rw [hsl, List.mem_map] at hg
    obtain ⟨c, hc, rfl⟩ := hg
    exact ⟨c, (List.mem_filter.mp hc).1, rfl⟩
  have hO : ∀ g ∈ otherLabels, ∃ c ∈ cands, c.f = g := by
    intro g hg
    rw [hol, List.mem_map] at hg
    obtain ⟨c, hc, rfl⟩ := hg
    exact ⟨c, (List.mem_filter.mp hc).1, rfl⟩
  have hstS : ∀ e2 ∈ (sLoop cosd sind proj sOpts sLabels ([], [])).1,
      ∃ c ∈ cands, c.f = e2.1 := by
    intro e2 he2
    have hfeat := sLoop_features cosd sind proj sOpts sLabels [] []
    have : e2.1 ∈ ((sLoop cosd sind proj sOpts sLabels ([], [])).1).map Prod.fst :=
      List.mem_map_of_mem _ he2
    rw [hfeat] at this
    simp only [List.map_nil, List.nil_append] at this
    exact hS _ this
  split at he
  · rw [← @Prod.mk.eta _ _ (sLoop cosd sind proj sOpts sLabels ([], []))] at he
    rcases otherLoop_entries proj (maxPlacesForZoom zoom) otherLabels _ _ e he with h | h
    · exact hstS e h
    · exact hO _ h
  · exact hstS e he

end Part000

namespace Part000

open Declutter

/-- The output of `buildPlaceLayers` is bounded by the larger of the number
of S candidates and the zoom budget. -/
lemma placed_length_le (cosd sind : ℚ → ℚ) (proj : ℚ → ℚ → Pt)
    (inBounds : ℚ → ℚ → Bool) (zoom : ℚ) (features : List Feature) :
    (buildPlaceLayersPlaced cosd sind proj inBounds zoom features).length ≤
      max (((placeLabelCandidates features inBounds zoom).filter
        (fun c => decide (c.f.props.bucket = some "S"))).length) (maxPlacesForZoom zoom) := by
  unfold buildPlaceLayersPlaced
  simp only [List.partition_eq_filter_filter]
  set cands := placeLabelCandidates features inBounds zoom with hcands
  set sFilter := cands.filter (fun c => decide (c.f.props.bucket = some "S")) with hsf
  set sLabels := sFilter.map (fun c => c.f) with hsl
  set otherLabels := (cands.filter (fun c => !decide (c.f.props.bucket = some "S"))).map
    (fun c => c.f) with hol
  have hlen : ((sLoop cosd sind proj sOpts sLabels ([], [])).1).length = sFilter.length := by
    rw [sLoop_length]
    simp [hsl]
  split
  · rename_i hrem
    have hlt : ((sLoop cosd sind proj sOpts sLabels ([], [])).1).length <
        maxPlacesForZoom zoom := by omega
    rw [← @Prod.mk.eta _ _ (sLoop cosd sind proj sOpts sLabels ([], []))]
    refine le_trans (otherLoop_length_le proj (maxPlacesForZoom zoom) otherLabels _ _
      (le_of_lt hlt)) ?_
    exact le_max_right _ _
  · rw [hlen]
    exact le_max_left _ _

/-- `buildPlaceLayers` always emits at least one entry per S candidate
(the S loop consults no budget). -/
lemma placed_length_ge (cosd sind : ℚ → ℚ) (proj : ℚ → ℚ → Pt)
    (inBounds : ℚ → ℚ → Bool) (zoom : ℚ) (features : List Feature) :
    (((placeLabelCandidates features inBounds zoom).filter
        (fun c => decide (c.f.props.bucket = some "S"))).length) ≤
      (buildPlaceLayersPlaced cosd sind proj inBounds zoom features).length := by
  unfold buildPlaceLayersPlaced
  simp only [List.partition_eq_filter_filter]
  set cands := placeLabelCandidates features inBounds zoom with hcands
  set sFilter := cands.filter (fun c => decide (c.f.props.bucket = some "S")) with hsf
  set sLabels := sFilter.map (fun c => c.f) with hsl
  set otherLabels := (cands.filter (fun c => !decide (c.f.props.bucket = some "S"))).map
    (fun c => c.f) with hol
  have hlen : ((sLoop cosd sind proj sOpts sLabels ([], [])).1).length = sFilter.length := by
    rw [sLoop_length]
    simp [hsl]
  split
  · rw [← @Prod.mk.eta _ _ (sLoop cosd sind proj sOpts sLabels ([], []))]
    rw [← hlen]
    exact otherLoop_length_ge proj (maxPlacesForZoom zoom) otherLabels _ _
  · rw [hlen]

end Part000

namespace QaMap

open Declutter

/-- Splitting a list by a predicate preserves its length. -/
lemma length_filter_add_length_filter_not {α : Type} (p : α → Bool) (l : List α) :
    (l.filter p).length + (l.filter (fun a => !p a)).length = l.length := by
  rw [← List.countP_eq_length_filter, ← List.countP_eq_length_filter]
  have h := List.length_eq_countP_add_countP p l
  rw [h]
  congr 1
  apply List.countP_congr
  intro a _
  simp

/-- The output of `updatePlaces` never exceeds the zoom budget. -/
lemma updatePlaces_length_le (cosd sind : ℚ → ℚ) (proj : ℚ → ℚ → Pt)
    (inBounds : ℚ → ℚ → Bool) (nameCmp : String → String → Int)
    (zoom : ℚ) (features : List Feature) :
    (updatePlacesPlaced cosd sind proj inBounds nameCmp zoom features).length ≤
      maxPlacesForZoom zoom := by
  unfold updatePlacesPlaced
  simp only [List.partition_eq_filter_filter, Function.comp_def]
  set visible := ((features.filter (candOk CORE_TAG_MODE inBounds zoom)).mergeSort
    (qaLe nameCmp)).take (maxPlacesForZoom zoom) with hvis
  rw [List.length_append, sLoop_length]
  have h2 : ((visible.filter (fun f => !decide (f.props.bucket = some "S"))).filterMap
      (fun f => if f.coords.length < 2 then none
                else some (f, basePtOf proj f))).length ≤
      (visible.filter (fun f => !decide (f.props.bucket = some "S"))).length :=
    List.length_filterMap_le _ _
  have hsum := length_filter_add_length_filter_not
    (fun f => decide (f.props.bucket = some "S")) visible
  have hvislen : visible.length ≤ maxPlacesForZoom zoom := by
    rw [hvis]
    exact List.length_take_le _ _
  simp only [List.length_nil]
  omega

/-- Every feature placed by `updatePlaces` passes the candidate filter. -/
lemma qa_mem_features (cosd sind : ℚ → ℚ) (proj : ℚ → ℚ → Pt)
    (inBounds : ℚ → ℚ → Bool) (nameCmp : String → String → Int)
    (zoom : ℚ) (features : List Feature) {e : Feature × Pt}
    (he : e ∈ updatePlacesPlaced cosd sind proj inBounds nameCmp zoom features) :
    e.1 ∈ features ∧ candOk CORE_TAG_MODE inBounds zoom e.1 = true := by
  unfold updatePlacesPlaced at he
  simp only [List.partition_eq_filter_filter] at he
  set visible := ((features.filter (candOk CORE_TAG_MODE inBounds zoom)).mergeSort
    (qaLe nameCmp)).take (maxPlacesForZoom zoom) with hvis
  have hvismem : ∀ g ∈ visible, g ∈ features.filter (candOk CORE_TAG_MODE inBounds zoom) := by
    intro g hg
    rw [hvis] at hg
    have := List.take_subset _ _ hg
    rwa [List.mem_mergeSort] at this
  have hconc : e.1 ∈ visible := by
    rcases List.mem_append.mp he with h | h
    · have hfeat := sLoop_features cosd sind proj sOpts
        (visible.filter (fun f => decide (f.props.bucket = some "S"))) [] []
      have hmem : e.1 ∈ ((sLoop cosd sind proj sOpts
          (visible.filter (fun f => decide (f.props.bucket = some "S"))) ([], [])).1).map
          Prod.fst := List.mem_map_of_mem _ h
      rw [hfeat] at hmem
      simp only [List.map_nil, List.nil_append] at hmem
      exact (List.mem_filter.mp hmem).1
    · rw [List.mem_filterMap] at h
      obtain ⟨f0, hf0, hsome⟩ := h
      split at hsome
      · exact absurd hsome (by simp)
      · have : e = (f0, basePtOf proj f0) := by
          injection hsome with h2
          exact h2.symm
        rw [this]
        exact (List.mem_filter.mp hf0).1
  have := hvismem _ hconc
  exact List.mem_filter.mp this

end QaMap

namespace Part000

open Declutter

/-- Projecting the ghost flag away from the annotated pipeline yields the
plain pipeline. -/
lemma flagged_proj (cosd sind : ℚ → ℚ) (proj : ℚ → ℚ → Pt)
    (inBounds : ℚ → ℚ → Bool) (zoom : ℚ) (features : List Feature) :
    (buildPlaceLayersFlagged cosd sind proj inBounds zoom features).map
      (fun e => (e.1, e.2.1)) =
      buildPlaceLayersPlaced cosd sind proj inBounds zoom features := by
  simp only [buildPlaceLayersFlagged, buildPlaceLayersPlaced]
  set sLabels := (((placeLabelCandidates features inBounds zoom).partition
    (fun c => c.f.props.bucket = some "S")).1).map (fun c => c.f) with hsl
  set otherLabels := (((placeLabelCandidates features inBounds zoom).partition
    (fun c => c.f.props.bucket = some "S")).2).map (fun c => c.f) with hol
  set stF := sLoopF cosd sind proj sOpts sLabels ([], []) with hstF
  have hst := sLoopF_proj cosd sind proj sOpts sLabels [] []
  simp only [List.map_nil] at hst
  rw [← hstF] at hst
  rw [hst]
  simp only [List.length_map]
  by_cases hcond : 0 < maxPlacesForZoom zoom - stF.1.length
  · rw [if_pos hcond, if_pos hcond]
    have hol2 := otherLoopF_proj proj (maxPlacesForZoom zoom) otherLabels stF.1 stF.2
    rw [Prod.mk.eta] at hol2
    rw [hol2]
  · rw [if_neg hcond, if_neg hcond]

/-- The no-overlap invariant for the annotated pipeline, together with the
origin of raised flags: flags can only be raised on S-bucket features. -/
lemma flagged_pairwise (cosd sind : ℚ → ℚ) (proj : ℚ → ℚ → Pt)
    (inBounds : ℚ → ℚ → Bool) (zoom : ℚ) (features : List Feature) :
    List.Pairwise (noOverlapUnlessFlag 90 18)
      (buildPlaceLayersFlagged cosd sind proj inBounds zoom features) ∧
    (∀ e ∈ buildPlaceLayersFlagged cosd sind proj inBounds zoom features,
      e.2.2 = true → e.1.props.bucket = some "S") := by
  simp only [buildPlaceLayersFlagged]
  set cands := placeLabelCandidates features inBounds zoom with hcands
  set sLabels := ((cands.partition (fun c => c.f.props.bucket = some "S")).1).map
    (fun c => c.f) with hsl
  set otherLabels := ((cands.partition (fun c => c.f.props.bucket = some "S")).2).map
    (fun c => c.f) with hol
  set stF := sLoopF cosd sind proj sOpts sLabels ([], []) with hstF
  have hSmem : ∀ g ∈ sLabels, g.props.bucket = some "S" := by
    intro g hg
    rw [hsl, List.mem_map] at hg
    obtain ⟨c, hc, rfl⟩ := hg
    rw [List.partition_eq_filter_filter, List.mem_filter] at hc
    exact of_decide_eq_true hc.2
  have hsMain := sLoopF_pairwise cosd sind proj sOpts sLabels [] [] (by simp) (by simp)
  rw [← hstF] at hsMain
  obtain ⟨hsPW, hsOcc⟩ := hsMain
  have hsPW90 : List.Pairwise (noOverlapUnlessFlag 90 18) stF.1 := hsPW
  have hsOcc90 : stF.2 = stF.1.map (fun e => rectForPoint e.2.1 90 18) := hsOcc
  have hstEntries : ∀ e ∈ stF.1, e.1 ∈ sLabels := by
    intro e he
    rcases sLoopF_entries cosd sind proj sOpts sLabels [] [] e (by rw [hstF] at he; exact he)
      with h | h
    · simp at h
    · exact h
  by_cases hcond : 0 < maxPlacesForZoom zoom - stF.1.length
  · rw [if_pos hcond]
    constructor
    · rw [← @Prod.mk.eta _ _ stF]
      exact otherLoopF_pairwise proj (maxPlacesForZoom zoom) otherLabels stF.1 stF.2
        hsOcc90 hsPW90
    · intro e he hflag
      rw [← @Prod.mk.eta _ _ stF] at he
      rcases otherLoopF_entries proj (maxPlacesForZoom zoom) otherLabels stF.1 stF.2 e he
        with h | ⟨-, hff⟩
      · exact hSmem _ (hstEntries e h)
      · rw [hflag] at hff
        exact absurd hff (by simp)
  · rw [if_neg hcond]
    constructor
    · exact hsPW90
    · intro e he hflag
      exact hSmem _ (hstEntries e he)

end Part000

namespace Declutter

/-- The concrete radius sequence for the S-tier options (`step 6`,
`maxRadius 72`). -/
lemma radii_6_72 : radii 6 72 = [6, 12, 18, 24, 30, 36, 42, 48, 54, 60, 66, 72] := by
  rw [radii, dif_pos (by norm_num : (0:ℚ) < 6), radiiAux_eq_range]
  have hq : ((72 : ℚ) - 6) / 6 = ((11 : ℤ) : ℚ) := by norm_num
  have hcount : iterCount 6 72 6 = 12 := by
    unfold iterCount
    rw [if_pos (by norm_num : (6:ℚ) ≤ 72), hq, Int.floor_intCast]
    rfl
  rw [hcount]
  norm_num [List.range_succ]

/-- The concrete angle sequence for the S-tier options (`angleStep 45`). -/
lemma angles_45 : angles 45 = [0, 45, 90, 135, 180, 225, 270, 315] := by
  rw [angles, dif_pos (by norm_num : (0:ℚ) < 45), anglesAux_eq_range]
  have hq : ((360 : ℚ) - 0) / 45 = ((8 : ℤ) : ℚ) := by norm_num
  have hcount : angleIterCount 45 0 = 8 := by
    unfold angleIterCount
    rw [if_pos (by norm_num : (0:ℚ) < 360), hq, Int.ceil_intCast]
    rfl
  rw [hcount]
  norm_num [List.range_succ]

/-- The concrete probe sequence for the S-tier options. -/
lemma probeSeq_6_72_45 :
    probeSeq 6 72 45 =
      ([6, 12, 18, 24, 30, 36, 42, 48, 54, 60, 66, 72] : List ℚ).flatMap
        (fun r => ([0, 45, 90, 135, 180, 225, 270, 315] : List ℚ).map (fun a => (r, a))) := by
  rw [probeSeq, radii_6_72, angles_45]

end Declutter

namespace Declutter

/-- Claim C7: `getMinZoom` returns an explicit numeric `minZoom` verbatim;
otherwise, for a truthy tier present in the threshold table, the table
entry for `(category, tier)`; otherwise (tier missing, empty, or not a
table key) the category's `high` threshold — which is the largest value in
the category's table row, so such features get the most restrictive
minimum zoom. -/
theorem c7_min_zoom_resolution (p : Props) (category : Category) :
    (∀ z, p.minZoom = some z → getMinZoom p category = z) ∧
    (p.minZoom = none → ∀ t v, p.tier = some t → t ≠ "" →
      tierThreshold category t = some v → getMinZoom p category = v) ∧
    (p.minZoom = none →
      (p.tier = none ∨ p.tier = some "" ∨
        ∀ t, p.tier = some t → tierThreshold category t = none) →
      getMinZoom p category = highThreshold category) ∧
    (∀ t v, tierThreshold category t = some v → v ≤ highThreshold category) := by
  refine ⟨?_, ?_, ?_, ?_⟩
  · intro z hz
    simp only [getMinZoom, hz]
  · intro hmz t v ht htne hth
    simp only [getMinZoom, hmz, ht, hth]
    rw [if_pos htne]
  · intro hmz hcase
    simp only [getMinZoom, hmz]
    rcases hcase with ht | ht | ht
    · simp only [ht]
    · simp only [ht]
      simp
    · cases htier : p.tier with
      | none => simp
      | some t =>
        simp only [htier]
        by_cases hte : t = ""
        · rw [if_neg (fun hn => hn hte)]
        · rw [if_pos hte, ht t htier]
  · intro t v h
    cases category
    · simp only [tierThreshold] at h
      split_ifs at h <;> simp_all [highThreshold] <;> linarith
    · simp only [tierThreshold] at h
      split_ifs at h <;> simp_all [highThreshold] <;> linarith

/-- Claim C10: a missing, non-array or empty effective tag list
(`props.tags || props.core_tags`) fails `coreTagOk` before the tag-filter
mode is consulted — in every mode, including `"all"` — so such a feature is
rejected by the candidate filter and never rendered. -/
theorem c10_empty_tags_excluded (mode : String) (tags : Option (List String))
    (hempty : tags = none ∨ tags = some []) :
    coreTagOk mode tags = false ∧
    (∀ (inBounds : ℚ → ℚ → Bool) (zoom : ℚ) (f : Feature),
      effTags f.props = tags → candOk mode inBounds zoom f = false) := by
  have hok : coreTagOk mode tags = false := by
    rcases hempty with rfl | rfl
    · rfl
    · simp [coreTagOk]
  refine ⟨hok, ?_⟩
  intro inB zoom f hf
  unfold candOk
  rw [hf, hok]
  simp

/-- Claim C10 witness: the empty tag array, in mode `"all"`, on a concrete
S-bucket in-bounds feature. -/
theorem c10_empty_tags_witness :
    (some ([] : List String) = none ∨ some ([] : List String) = some []) ∧
    coreTagOk "all" (some []) = false ∧
    candOk "all" Fixtures.allBounds 6 Fixtures.emptyTagFeature = false := by
  refine ⟨Or.inr rfl, ?_, ?_⟩
  · exact (c10_empty_tags_excluded "all" (some []) (Or.inr rfl)).1
  · exact (c10_empty_tags_excluded "all" (some []) (Or.inr rfl)).2
      Fixtures.allBounds 6 Fixtures.emptyTagFeature rfl

/-- Claim C9: a feature whose coordinate array has fewer than two entries —
or, more generally, one rejected by the viewport-bounds test, which is how
Leaflet treats non-finite coordinates — fails the candidate filter and is
absent from the output of both render pipelines; the pipelines are total
functions, so no exception can arise. -/
theorem c9_malformed_coords_excluded (cosd sind : ℚ → ℚ) (proj : ℚ → ℚ → Pt)
    (inBounds : ℚ → ℚ → Bool) (nameCmp : String → String → Int) (zoom : ℚ)
    (features : List Feature) (f : Feature)
    (hbad : f.coords.length < 2 ∨
      inBounds (f.coords.getD 1 0) (f.coords.getD 0 0) = false) :
    candOk CORE_TAG_MODE inBounds zoom f = false ∧
    (∀ c ∈ Part000.placeLabelCandidates features inBounds zoom, c.f ≠ f) ∧
    (∀ pt : Pt,
      (f, pt) ∉ Part000.buildPlaceLayersPlaced cosd sind proj inBounds zoom features) ∧
    (∀ pt : Pt,
      (f, pt) ∉ QaMap.updatePlacesPlaced cosd sind proj inBounds nameCmp zoom features) := by
  have hcand : candOk CORE_TAG_MODE inBounds zoom f = false := by
    unfold candOk
    rcases hbad with hlen | hb
    · have h2 : decide (2 ≤ f.coords.length) = false := by
        simp only [decide_eq_false_iff_not]
        omega
      rw [h2]
      simp
    · rw [hb]
      simp
  refine ⟨hcand, ?_, ?_, ?_⟩
  · intro c hc hcf
    have := (Part000.mem_candidates features inBounds zoom hc).2
    rw [hcf, hcand] at this
    exact Bool.false_ne_true this
  · intro pt hmem
    obtain ⟨c, hc, hcf⟩ := Part000.mem_placed_features cosd sind proj inBounds zoom
      features hmem
    have := (Part000.mem_candidates features inBounds zoom hc).2
    rw [hcf] at this
    rw [hcand] at this
    exact Bool.false_ne_true this
  · intro pt hmem
    have := (QaMap.qa_mem_features cosd sind proj inBounds nameCmp zoom features hmem).2
    rw [hcand] at this
    exact Bool.false_ne_true this

/-- Claim C9 witness: a feature with a single-entry coordinate array is absent
from both concrete pipelines run on a list containing it. -/
theorem c9_malformed_coords_witness :
    (Fixtures.badCoordFeature.coords.length < 2 ∨
      Fixtures.allBounds (Fixtures.badCoordFeature.coords.getD 1 0)
        (Fixtures.badCoordFeature.coords.getD 0 0) = false) ∧
    (∀ pt : Pt, (Fixtures.badCoordFeature, pt) ∉
      Part000.buildPlaceLayersPlaced Fixtures.noTrig Fixtures.noTrig Fixtures.idProj
        Fixtures.allBounds 5 [Fixtures.badCoordFeature]) := by
  have hbad : Fixtures.badCoordFeature.coords.length < 2 ∨
      Fixtures.allBounds (Fixtures.badCoordFeature.coords.getD 1 0)
        (Fixtures.badCoordFeature.coords.getD 0 0) = false := Or.inl (by decide)
  exact ⟨hbad, (c9_malformed_coords_excluded Fixtures.noTrig Fixtures.noTrig
    Fixtures.idProj Fixtures.allBounds Fixtures.zeroCmp 5 [Fixtures.badCoordFeature]
    Fixtures.badCoordFeature hbad).2.2.1⟩

/-- Claim C8: with a positive radial step the engine terminates on every
configuration: when `radialStep > maxRadius` the radial loop runs zero
iterations and `placeWithOffsets` returns the unshifted anchor (per the
fallback policy, for both values of `forceOffsetOnOverlap`); when
`radialStep = maxRadius` exactly one radius is probed.  (`placeWithOffsets`
is a total Lean function, so no exception escapes it.) -/
theorem c8_degenerate_configurations (cosd sind : ℚ → ℚ) (basePt : Pt)
    (occupied : List Rect) (opts : PlaceOpts) (hstep : 0 < opts.step) :
    (opts.maxRadius < opts.step → radii opts.step opts.maxRadius = []) ∧
    (opts.step = opts.maxRadius → radii opts.step opts.maxRadius = [opts.step]) ∧
    (opts.maxRadius < opts.step →
      placeWithOffsets cosd sind basePt occupied opts =
        (basePt, rectForPoint basePt opts.labelW opts.labelH)) := by
  have hnil : opts.maxRadius < opts.step → radii opts.step opts.maxRadius = [] := by
    intro hlt
    rw [radii, dif_pos hstep, radiiAux, dif_neg (not_le.mpr hlt)]
  refine ⟨hnil, ?_, ?_⟩
  · intro heq
    rw [radii, dif_pos hstep, radiiAux, dif_pos (le_of_eq heq)]
    rw [radiiAux, dif_neg (by rw [← heq]; intro hc; nlinarith)]
  · intro hlt
    have hps : probeSeq opts.step opts.maxRadius opts.angleStep = [] := by
      unfold probeSeq
      rw [hnil hlt]
      rfl
    unfold placeWithOffsets
    by_cases h0 : countOverlaps (rectForPoint basePt opts.labelW opts.labelH) occupied = 0
    · rw [if_pos h0]
    · rw [if_neg h0, hps]
      simp only [searchLoop]
      cases opts.forceOffsetOnOverlap <;> simp

/-- Claim C8 witness: concrete degenerate configurations `step 6 > maxRadius 3`
(zero iterations, anchor returned) and `step 6 = maxRadius 6` (one
iteration). -/
theorem c8_degenerate_witness :
    (0 : ℚ) < 6 ∧ radii 6 3 = [] ∧ radii 6 6 = [6] ∧
    placeWithOffsets Fixtures.noTrig Fixtures.noTrig { x := 0, y := 0 }
      [Fixtures.giantRect] { labelW := 90, labelH := 18, forceOffsetOnOverlap := true
                             maxRadius := 3, step := 6, angleStep := 45 } =
      ({ x := 0, y := 0 }, rectForPoint { x := 0, y := 0 } 90 18) := by
  have h6 : (0 : ℚ) < 6 := by norm_num
  refine ⟨h6, ?_, ?_, ?_⟩
  · exact (c8_degenerate_configurations Fixtures.noTrig Fixtures.noTrig
      { x := 0, y := 0 } [] { labelW := 90, labelH := 18, forceOffsetOnOverlap := false
                              maxRadius := 3, step := 6, angleStep := 45 } h6).1
      (by norm_num)
  · exact (c8_degenerate_configurations Fixtures.noTrig Fixtures.noTrig
      { x := 0, y := 0 } [] { labelW := 90, labelH := 18, forceOffsetOnOverlap := false
                              maxRadius := 6, step := 6, angleStep := 45 } h6).2.1 rfl
  · exact (c8_degenerate_configurations Fixtures.noTrig Fixtures.noTrig
      { x := 0, y := 0 } [Fixtures.giantRect]
      { labelW := 90, labelH := 18, forceOffsetOnOverlap := true
        maxRadius := 3, step := 6, angleStep := 45 } h6).2.2 (by norm_num)

end Declutter

namespace Declutter

/-- Claim C6: throughout a `part_000` render pass the accepted label boxes are
pairwise non-overlapping, with one exception: an entry accepted through the
exhausted-search fallback (every probe position overlapped, and
`forceOffsetOnOverlap` forced a placement; recorded by the ghost flag of
the annotated pipeline) may overlap earlier boxes.  Flags are only ever
raised on top-tier (bucket S) features, and the annotated pipeline projects
exactly onto the plain one. -/
theorem c6_no_overlap_invariant (cosd sind : ℚ → ℚ) (proj : ℚ → ℚ → Pt)
    (inBounds : ℚ → ℚ → Bool) (zoom : ℚ) (features : List Feature) :
    ((Part000.buildPlaceLayersFlagged cosd sind proj inBounds zoom features).map
      (fun e => (e.1, e.2.1)) =
      Part000.buildPlaceLayersPlaced cosd sind proj inBounds zoom features) ∧
    List.Pairwise (noOverlapUnlessFlag 90 18)
      (Part000.buildPlaceLayersFlagged cosd sind proj inBounds zoom features) ∧
    (∀ e ∈ Part000.buildPlaceLayersFlagged cosd sind proj inBounds zoom features,
      e.2.2 = true → e.1.props.bucket = some "S") :=
  ⟨Part000.flagged_proj cosd sind proj inBounds zoom features,
   (Part000.flagged_pairwise cosd sind proj inBounds zoom features).1,
   (Part000.flagged_pairwise cosd sind proj inBounds zoom features).2⟩

unseal Rat.mul Rat.inv Rat.add Rat.sub Rat.ofScientific List.merge List.mergeSort in
/-- Claim C2 counterexample: in the `qa_map.js` variant (`updatePlaces`),
non-top-tier features are placed at their unshifted anchors with no overlap
test at all: with an S feature and an A feature projecting to the same
point, the A label is accepted at a box identical to the already-occupied S
box, contradicting the claimed reject-on-overlap behaviour. -/
theorem c2_counterexample :
    QaMap.updatePlacesPlaced Fixtures.noTrig Fixtures.noTrig Fixtures.idProj
      Fixtures.allBounds Fixtures.zeroCmp 6 [Fixtures.fS, Fixtures.fA] =
      [(Fixtures.fS, { x := 0, y := 0 }), (Fixtures.fA, { x := 0, y := 0 })] ∧
    rectsOverlap (rectForPoint { x := 0, y := 0 } 90 18)
      (rectForPoint { x := 0, y := 0 } 90 18) = true ∧
    Fixtures.fA.props.bucket ≠ some "S" := by
  refine ⟨?_, by decide, by decide⟩
  unfold QaMap.updatePlacesPlaced
  decide

/-- Claim C2 (amended): in the `part_000` variant (`buildPlaceLayers`), the
claim holds: every accepted non-top-tier feature's box overlaps no box
accepted before it (overlapping features are skipped, and no offset search
is attempted for them).  The `qa_map.js` variant places non-top-tier labels
unconditionally; see the counterexample. -/
theorem c2_amended_reject_on_overlap (cosd sind : ℚ → ℚ) (proj : ℚ → ℚ → Pt)
    (inBounds : ℚ → ℚ → Bool) (zoom : ℚ) (features : List Feature) :
    List.Pairwise (fun a b : Feature × Pt => b.1.props.bucket ≠ some "S" →
      rectsOverlap (rectForPoint a.2 90 18) (rectForPoint b.2 90 18) = false)
      (Part000.buildPlaceLayersPlaced cosd sind proj inBounds zoom features) := by
  rw [← Part000.flagged_proj cosd sind proj inBounds zoom features]
  rw [List.pairwise_map]
  obtain ⟨hpw, hflagS⟩ := Part000.flagged_pairwise cosd sind proj inBounds zoom features
  refine List.Pairwise.imp_of_mem ?_ hpw
  intro a b hmema hmemb hrel hb
  cases hfb : b.2.2 with
  | false => exact hrel hfb
  | true => exact absurd (hflagS b hmemb hfb) hb

end Declutter

namespace Declutter

unseal Rat.mul Rat.inv Rat.add Rat.sub Rat.ofScientific List.merge List.mergeSort in
/-- Claim C3 counterexample: `part_000`'s `placeLabelCandidates` sorts only by
the composite priority key, with no name tie-break: two equal-priority S
candidates named "b" and "a" (in that input order) come out in input order
("b" before "a"), not ascending by display name — and "a" < "b" in any
case-insensitive lexicographic order, both being lowercase. -/
theorem c3_counterexample :
    (Part000.placeLabelCandidates [Fixtures.fNameB, Fixtures.fNameA] Fixtures.allBounds
      5).map (fun c => nameOf c.f.props) = ["b", "a"] ∧
    priorityOf Fixtures.fNameB.props = priorityOf Fixtures.fNameA.props ∧
    (nameOf Fixtures.fNameA.props).data = ['a'] ∧
    (nameOf Fixtures.fNameB.props).data = ['b'] ∧ ('a' : Char) < 'b' := by
  refine ⟨?_, by decide, by decide, by decide, by decide⟩
  unfold Part000.placeLabelCandidates
  decide

/-- Claim C3 (amended): `part_000`'s candidate list is sorted descending by the
composite key `bucketRank * 10000 + importance` and is a permutation of the
filtered candidates; the sort is stable, so candidates the comparator does
not strictly separate — in particular all equal-key candidates — keep their
input order (no name tie-break exists in this variant; only the `qa_map.js`
variant adds a `localeCompare` tie-break). -/
theorem c3_amended_priority_order (features : List Feature)
    (inBounds : ℚ → ℚ → Bool) (zoom : ℚ) :
    List.Sorted (fun a b : Part000.Cand => b.priority ≤ a.priority)
      (Part000.placeLabelCandidates features inBounds zoom) ∧
    (Part000.placeLabelCandidates features inBounds zoom).Perm
      ((features.filter (candOk CORE_TAG_MODE inBounds zoom)).map
        (fun f => { f := f, priority := priorityOf f.props })) ∧
    (∀ c d : Part000.Cand, d.priority ≤ c.priority →
      [c, d].Sublist ((features.filter (candOk CORE_TAG_MODE inBounds zoom)).map
        (fun f => { f := f, priority := priorityOf f.props })) →
      [c, d].Sublist (Part000.placeLabelCandidates features inBounds zoom)) := by
  refine ⟨?_, ?_, ?_⟩
  · have h := @List.sorted_mergeSort Part000.Cand
      (fun a b : Part000.Cand => decide (b.priority ≤ a.priority))
      (fun a b c hab hbc => by
        simp only [decide_eq_true_eq] at hab hbc ⊢
        exact le_trans hbc hab)
      (fun a b => by
        simp only [Bool.or_eq_true, decide_eq_true_eq]
        exact le_total b.priority a.priority)
      ((features.filter (candOk CORE_TAG_MODE inBounds zoom)).map
        (fun f => { f := f, priority := priorityOf f.props }))
    unfold Part000.placeLabelCandidates
    refine h.imp ?_
    intro a b hab
    simpa using hab
  · unfold Part000.placeLabelCandidates
    exact List.mergeSort_perm _ _
  · intro c d hle hsub
    unfold Part000.placeLabelCandidates
    refine List.pair_sublist_mergeSort
      (fun a b e hab hbe => by
        simp only [decide_eq_true_eq] at hab hbe ⊢
        exact le_trans hbe hab)
      (fun a b => by
        simp only [Bool.or_eq_true, decide_eq_true_eq]
        exact le_total b.priority a.priority)
      (by simpa using hle) hsub

end Declutter

namespace Declutter

unseal Rat.mul Rat.inv Rat.add Rat.sub Rat.ofScientific in
/-- Claim C4 counterexample: `part_001`'s `placeWithOffsets` (a cited variant)
does not probe the claimed radial ring: it probes the fixed offset list
`(0,0), (±14,0), (0,±14), (±14,±14)`.  With a small occupied box at the
origin it returns the anchor shifted by `(0, 14)`, while the first
zero-overlap probe of the radial order (step 6, maxRadius 72, angleStep 45)
is the position at radius 12, angle 90° — the point `(0, 12)`.  The
returned position is not the first zero-overlap radial probe (it is not a
radial probe at all: 14 is not a multiple of the radial step 6). -/
theorem c4_counterexample :
    Part001.placeWithOffsets { x := 0, y := 0 } [Fixtures.tinyRect] =
      ({ x := 0, y := 14 }, rectForPoint { x := 0, y := 14 } 90 18) ∧
    (probeSeq 6 72 45).find?
      (zeroOverlapProbe Fixtures.cosT Fixtures.sinT { x := 0, y := 0 } 90 18
        [Fixtures.tinyRect]) = some (12, 90) ∧
    probePt Fixtures.cosT Fixtures.sinT { x := 0, y := 0 } 12 90 = { x := 0, y := 12 } ∧
    ({ x := 0, y := 14 } : Pt) ≠ { x := 0, y := 12 } := by
  refine ⟨?_, ?_, by decide, by decide⟩
  · unfold Part001.placeWithOffsets Part001.offsetLoop
    decide
  · rw [probeSeq_6_72_45]
    decide

/-- Claim C4 (amended): in the radial variants (`qa_map.js`, `part_000`), when
the centered box overlaps an occupied box and some probe position is
overlap-free, `placeWithOffsets` returns exactly the first zero-overlap
probe of the probe sequence, immediately; the probed radii are exactly the
positive multiples of `radialStep` up to `maxRadius` inclusive, ascending,
and the probed angles exactly the multiples of `angleStep` in `[0, 360)`,
ascending, with radius as the outer loop.  (The `part_001` variant probes a
fixed nine-offset list instead; see the counterexample.) -/
theorem c4_amended_first_zero_probe (cosd sind : ℚ → ℚ) (basePt : Pt)
    (occupied : List Rect) (opts : PlaceOpts) (r a : ℚ)
    (hbase : countOverlaps (rectForPoint basePt opts.labelW opts.labelH) occupied ≠ 0)
    (hfind : (probeSeq opts.step opts.maxRadius opts.angleStep).find?
      (zeroOverlapProbe cosd sind basePt opts.labelW opts.labelH occupied) = some (r, a)) :
    placeWithOffsets cosd sind basePt occupied opts =
      (probePt cosd sind basePt r a,
        rectForPoint (probePt cosd sind basePt r a) opts.labelW opts.labelH) ∧
    (0 < opts.step → ∀ x, (x ∈ radii opts.step opts.maxRadius ↔
      ∃ k : ℕ, x = opts.step * (k + 1) ∧ x ≤ opts.maxRadius)) ∧
    (0 < opts.angleStep → ∀ x, (x ∈ angles opts.angleStep ↔
      ∃ k : ℕ, x = opts.angleStep * k ∧ x < 360)) ∧
    List.Sorted (fun x y : ℚ => x < y) (radii opts.step opts.maxRadius) ∧
    List.Sorted (fun x y : ℚ => x < y) (angles opts.angleStep) ∧
    probeSeq opts.step opts.maxRadius opts.angleStep =
      (radii opts.step opts.maxRadius).flatMap
        (fun rr => (angles opts.angleStep).map (fun aa => (rr, aa))) :=
  ⟨placeWithOffsets_first_zero cosd sind basePt occupied opts r a hbase hfind,
   fun h x => mem_radii_iff h x,
   fun h x => mem_angles_iff h x,
   radii_sorted _ _, angles_sorted _, rfl⟩

unseal Rat.mul Rat.inv Rat.add Rat.sub Rat.ofScientific in
/-- Claim C4 (amended) witness: the radial engine on the same input as the
counterexample returns the first zero-overlap probe `(0, 12)`. -/
theorem c4_amended_witness :
    (countOverlaps (rectForPoint { x := 0, y := 0 } sOpts.labelW sOpts.labelH)
      [Fixtures.tinyRect] ≠ 0) ∧
    placeWithOffsets Fixtures.cosT Fixtures.sinT { x := 0, y := 0 }
      [Fixtures.tinyRect] sOpts =
      ({ x := 0, y := 12 }, rectForPoint { x := 0, y := 12 } 90 18) := by
  have hbase : countOverlaps (rectForPoint { x := 0, y := 0 } sOpts.labelW sOpts.labelH)
      [Fixtures.tinyRect] ≠ 0 := by decide
  have hfind : (probeSeq sOpts.step sOpts.maxRadius sOpts.angleStep).find?
      (zeroOverlapProbe Fixtures.cosT Fixtures.sinT { x := 0, y := 0 }
        sOpts.labelW sOpts.labelH [Fixtures.tinyRect]) = some (12, 90) := by
    show (probeSeq 6 72 45).find? (zeroOverlapProbe Fixtures.cosT Fixtures.sinT
      { x := 0, y := 0 } 90 18 [Fixtures.tinyRect]) = some (12, 90)
    rw [probeSeq_6_72_45]
    decide
  have h := c4_amended_first_zero_probe Fixtures.cosT Fixtures.sinT { x := 0, y := 0 }
    [Fixtures.tinyRect] sOpts 12 90 hbase hfind
  refine ⟨hbase, ?_⟩
  rw [h.1]
  decide

end Declutter

namespace Declutter

/-- Claim C5: fallback policy of the radial `placeWithOffsets`.  When every
candidate position — the origin and every probe — has a nonzero overlap
count: with `forceOffsetOnOverlap` set, the returned position is one of the
candidate positions, its overlap count is minimal among all candidates,
and among candidates achieving that minimum its radius is maximal (ties
among equal counts prefer the largest radius); with `forceOffsetOnOverlap`
unset, the original unshifted anchor is returned regardless of overlap. -/
theorem c5_fallback_policy (cosd sind : ℚ → ℚ) (basePt : Pt)
    (occupied : List Rect) (opts : PlaceOpts)
    (hall : ∀ q ∈ probeCands cosd sind basePt opts,
      countOverlaps (rectForPoint q.2 opts.labelW opts.labelH) occupied ≠ 0) :
    (opts.forceOffsetOnOverlap = true →
      ∃ rr, (rr, (placeWithOffsets cosd sind basePt occupied opts).1) ∈
          probeCands cosd sind basePt opts ∧
        (∀ q ∈ probeCands cosd sind basePt opts,
          countOverlaps (rectForPoint
            (placeWithOffsets cosd sind basePt occupied opts).1
            opts.labelW opts.labelH) occupied ≤
          countOverlaps (rectForPoint q.2 opts.labelW opts.labelH) occupied) ∧
        (∀ q ∈ probeCands cosd sind basePt opts,
          countOverlaps (rectForPoint q.2 opts.labelW opts.labelH) occupied =
            countOverlaps (rectForPoint
              (placeWithOffsets cosd sind basePt occupied opts).1
              opts.labelW opts.labelH) occupied → q.1 ≤ rr)) ∧
    (opts.forceOffsetOnOverlap = false →
      placeWithOffsets cosd sind basePt occupied opts =
        (basePt, rectForPoint basePt opts.labelW opts.labelH)) := by
  have hbase : countOverlaps (rectForPoint basePt opts.labelW opts.labelH) occupied ≠ 0 :=
    hall (0, basePt) (List.mem_cons_self _ _)
  have hprobes : ∀ r a, (r, a) ∈ probeSeq opts.step opts.maxRadius opts.angleStep →
      countOverlaps (rectForPoint (probePt cosd sind basePt r a)
        opts.labelW opts.labelH) occupied ≠ 0 := by
    intro r a hmem
    exact hall (r, probePt cosd sind basePt r a)
      (List.mem_cons_of_mem _ (by
        rw [List.mem_map]
        exact ⟨(r, a), hmem, rfl⟩))
  constructor
  · intro hforce
    obtain ⟨b2, hrun, h1, h2, h3, h4, h5, h6, h7⟩ :=
      searchLoop_exhausted_spec cosd sind basePt opts.labelW opts.labelH occupied
        (probeSeq opts.step opts.maxRadius opts.angleStep)
        { pt := basePt, rect := rectForPoint basePt opts.labelW opts.labelH
          overlaps := countOverlaps (rectForPoint basePt opts.labelW opts.labelH) occupied
          dist := 0 }
        hprobes rfl rfl
    have hpw : placeWithOffsets cosd sind basePt occupied opts = (b2.pt, b2.rect) := by
      unfold placeWithOffsets
      rw [if_neg hbase, hforce, hrun]
      rfl
    rw [hpw]
    dsimp only
    have hcount2 : countOverlaps (rectForPoint b2.pt opts.labelW opts.labelH) occupied =
        b2.overlaps := by
      rw [← h1, ← h2]
    refine ⟨b2.dist, ?_, ?_, ?_⟩
    · rcases h3 with ⟨hpt, hdist⟩ | ⟨r, a, hmem, hpt, hdist⟩
      · rw [hpt, hdist]
        exact List.mem_cons_self _ _
      · rw [hpt, hdist]
        refine List.mem_cons_of_mem _ ?_
        rw [List.mem_map]
        exact ⟨(r, a), hmem, rfl⟩
    · intro q hq
      rw [hcount2]
      rcases List.mem_cons.mp hq with hq0 | hqtail
      · rw [hq0]
        simpa using h4
      · rw [List.mem_map] at hqtail
        obtain ⟨p, hp, rfl⟩ := hqtail
        exact h6 p.1 p.2 (by simpa using hp)
    · intro q hq hqc
      rw [hcount2] at hqc
      rcases List.mem_cons.mp hq with hq0 | hqtail
      · rw [hq0]
        have hdist0 : 0 ≤ b2.dist := by
          rcases h3 with ⟨-, hdist⟩ | ⟨r, a, hmem, -, hdist⟩
          · rw [hdist]
          · rw [hdist]
            have hr : r ∈ radii opts.step opts.maxRadius := by
              unfold probeSeq at hmem
              rw [List.mem_flatMap] at hmem
              obtain ⟨rr, hrr, hmem2⟩ := hmem
              rw [List.mem_map] at hmem2
              obtain ⟨aa, -, heq⟩ := hmem2
              have : rr = r := congrArg Prod.fst heq
              rw [← this]
              exact hrr
            exact le_of_lt (radii_pos hr)
        exact hdist0
      · rw [List.mem_map] at hqtail
        obtain ⟨p, hp, rfl⟩ := hqtail
        exact h7 p.1 p.2 (by simpa using hp) hqc
  · intro hforce
    unfold placeWithOffsets
    rw [if_neg hbase, hforce]
    rw [searchLoop_no_force cosd sind basePt opts.labelW opts.labelH occupied _ _
      (fun p hp => hprobes p.1 p.2 (by simpa using hp))]
    rfl

end Declutter

namespace Declutter

/-- The concrete candidate-position list for the C5 witness scenario. -/
lemma probeCands_concrete :
    probeCands Fixtures.cosT Fixtures.sinT { x := 0, y := 0 } sOpts =
      ((0 : ℚ), ({ x := 0, y := 0 } : Pt)) ::
        (([6, 12, 18, 24, 30, 36, 42, 48, 54, 60, 66, 72] : List ℚ).flatMap
          (fun r => ([0, 45, 90, 135, 180, 225, 270, 315] : List ℚ).map
            (fun a => (r, a)))).map
          (fun p => (p.1, probePt Fixtures.cosT Fixtures.sinT { x := 0, y := 0 } p.1 p.2)) := by
  show ((0 : ℚ), ({ x := 0, y := 0 } : Pt)) :: (probeSeq 6 72 45).map
    (fun p => (p.1, probePt Fixtures.cosT Fixtures.sinT { x := 0, y := 0 } p.1 p.2)) = _
  rw [probeSeq_6_72_45]

set_option maxRecDepth 4000 in
unseal Rat.mul Rat.inv Rat.add Rat.sub Rat.ofScientific in
/-- Claim C5 witness: with a screen-covering occupied box every candidate
position overlaps; the S-tier options force a placement, and the theorem's
conclusions hold at this concrete input. -/
theorem c5_fallback_witness :
    (∀ q ∈ probeCands Fixtures.cosT Fixtures.sinT { x := 0, y := 0 } sOpts,
      countOverlaps (rectForPoint q.2 sOpts.labelW sOpts.labelH)
        [Fixtures.giantRect] ≠ 0) ∧
    ((sOpts.forceOffsetOnOverlap = true →
      ∃ rr, (rr, (placeWithOffsets Fixtures.cosT Fixtures.sinT { x := 0, y := 0 }
          [Fixtures.giantRect] sOpts).1) ∈
          probeCands Fixtures.cosT Fixtures.sinT { x := 0, y := 0 } sOpts ∧
        (∀ q ∈ probeCands Fixtures.cosT Fixtures.sinT { x := 0, y := 0 } sOpts,
          countOverlaps (rectForPoint
            (placeWithOffsets Fixtures.cosT Fixtures.sinT { x := 0, y := 0 }
              [Fixtures.giantRect] sOpts).1
            sOpts.labelW sOpts.labelH) [Fixtures.giantRect] ≤
          countOverlaps (rectForPoint q.2 sOpts.labelW sOpts.labelH)
            [Fixtures.giantRect]) ∧
        (∀ q ∈ probeCands Fixtures.cosT Fixtures.sinT { x := 0, y := 0 } sOpts,
          countOverlaps (rectForPoint q.2 sOpts.labelW sOpts.labelH)
            [Fixtures.giantRect] =
            countOverlaps (rectForPoint
              (placeWithOffsets Fixtures.cosT Fixtures.sinT { x := 0, y := 0 }
                [Fixtures.giantRect] sOpts).1
              sOpts.labelW sOpts.labelH) [Fixtures.giantRect] → q.1 ≤ rr)) ∧
    (sOpts.forceOffsetOnOverlap = false →
      placeWithOffsets Fixtures.cosT Fixtures.sinT { x := 0, y := 0 }
        [Fixtures.giantRect] sOpts =
        ({ x := 0, y := 0 },
         rectForPoint { x := 0, y := 0 } sOpts.labelW sOpts.labelH))) := by
  have hall : ∀ q ∈ probeCands Fixtures.cosT Fixtures.sinT { x := 0, y := 0 } sOpts,
      countOverlaps (rectForPoint q.2 sOpts.labelW sOpts.labelH)
        [Fixtures.giantRect] ≠ 0 := by
    rw [probeCands_concrete]
    decide
  exact ⟨hall, c5_fallback_policy Fixtures.cosT Fixtures.sinT { x := 0, y := 0 }
    [Fixtures.giantRect] sOpts hall⟩

end Declutter

namespace Declutter

unseal Rat.mul Rat.inv Rat.add Rat.sub Rat.ofScientific in
/-- Claim C1 counterexample: `part_000`'s `buildPlaceLayers` does not truncate
before the tier split and places every S candidate regardless of the
budget: 201 far-apart S candidates at zoom 5 produce 201 labels, exceeding
`maxPlacesForZoom 5 = 200`. -/
theorem c1_counterexample :
    Part000.maxPlacesForZoom 5 = 200 ∧
    ¬((Part000.buildPlaceLayersPlaced Fixtures.noTrig Fixtures.noTrig Fixtures.idProj
        Fixtures.allBounds 5 Fixtures.gen201).length ≤ Part000.maxPlacesForZoom 5) := by
  have hcap : Part000.maxPlacesForZoom 5 = 200 := by decide
  have hall : ∀ f ∈ Fixtures.gen201,
      candOk CORE_TAG_MODE Fixtures.allBounds 5 f = true := by
    intro f hf
    rw [Fixtures.gen201, List.mem_map] at hf
    obtain ⟨i, -, rfl⟩ := hf
    rfl
  have hfilter : Fixtures.gen201.filter (candOk CORE_TAG_MODE Fixtures.allBounds 5) =
      Fixtures.gen201 := List.filter_eq_self.mpr (by simpa using hall)
  have hcount : ((Part000.placeLabelCandidates Fixtures.gen201 Fixtures.allBounds 5).filter
      (fun c => decide (c.f.props.bucket = some "S"))).length = 201 := by
    rw [← List.countP_eq_length_filter]
    unfold Part000.placeLabelCandidates
    rw [(List.mergeSort_perm _ _).countP_eq]
    rw [hfilter, List.countP_map]
    have hS : ∀ f ∈ Fixtures.gen201,
        ((fun c : Part000.Cand => decide (c.f.props.bucket = some "S")) ∘
          (fun f => { f := f, priority := priorityOf f.props })) f = true := by
      intro f hf
      rw [Fixtures.gen201, List.mem_map] at hf
      obtain ⟨i, -, rfl⟩ := hf
      rfl
    rw [List.countP_eq_length.mpr (by simpa using hS)]
    rw [Fixtures.gen201]
    simp
  have hge := Part000.placed_length_ge Fixtures.noTrig Fixtures.noTrig Fixtures.idProj
    Fixtures.allBounds 5 Fixtures.gen201
  rw [hcount] at hge
  refine ⟨hcap, ?_⟩
  intro hle
  rw [hcap] at hle
  omega

/-- Claim C1 (amended): the budget bounds the output as follows.  In
`part_000`'s `buildPlaceLayers` the cap bounds only the non-top-tier
portion — the output length is at most the larger of the number of S
candidates and `maxPlacesForZoom zoom` (every S candidate is placed even
beyond the cap; see the counterexample).  In `qa_map.js`'s `updatePlaces`
the candidate list is truncated before the tier split, so the total never
exceeds `maxPlacesForZoom zoom`, as claimed. -/
theorem c1_amended_budget (cosd sind : ℚ → ℚ) (proj : ℚ → ℚ → Pt)
    (inBounds : ℚ → ℚ → Bool) (nameCmp : String → String → Int)
    (zoom : ℚ) (features : List Feature) :
    (Part000.buildPlaceLayersPlaced cosd sind proj inBounds zoom features).length ≤
      max (((Part000.placeLabelCandidates features inBounds zoom).filter
        (fun c => decide (c.f.props.bucket = some "S"))).length)
        (Part000.maxPlacesForZoom zoom) ∧
    (QaMap.updatePlacesPlaced cosd sind proj inBounds nameCmp zoom features).length ≤
      QaMap.maxPlacesForZoom zoom :=
  ⟨Part000.placed_length_le cosd sind proj inBounds zoom features,
   QaMap.updatePlaces_length_le cosd sind proj inBounds nameCmp zoom features⟩

end Declutter
